import Mathlib

set_option autoImplicit false

/-!
# Acronis policy exporter: task ingestion and cache update pipeline

A shallow embedding of `src/task.go`, `src/cache.go`, the pipeline assembled in
`src/main.go`, the probe handler of `src/prometheus.go` and `Auth` of `src/acronis.go`.  Go strings are Lean strings, `error` is `Option Err` (`none` is `nil`),
functions with effects pass the state they touch explicitly: the file system for the
cache store, an arbitrary state for pipeline stages and for the remote collaborator.

What the Go program takes from libraries is modelled as follows.

* `path/filepath` (`Clean`, `Join`, `Base`, `Dir`) for the Unix separator, element by
  element (see `filepath.cleanStep`).
* The file system is a set of directories and a finite map from path strings to file
  contents.  A file is identified by the path string handed to `open`.  A path with a
  NUL byte is refused with `EINVAL`, a path of 4096 bytes or more and a name of more than
  255 bytes with `ENAMETOOLONG` (the limits of Linux); permissions, quotas and symbolic
  links are not modelled.
* `encoding/json` for `Task` is a parameter (`TaskCodec`): which tasks marshal, what the
  encoder writes and what the decoder returns, such that decoding the encoding of a task
  that marshals gives the task back.  `Encode` marshals before it writes, so a task that
  does not marshal leaves the truncated file empty.
* `time.Time` is the instant it denotes; `Before` compares instants.
* Writing the log lines of `walkTasks` to the standard error stream is not modelled;
  evaluating their operands is, since `after[:16]` and `newTasks[0]` can panic.
* The HTTP calls of `AcronisAPI.Call` are parameters: what the call returns for a
  request, acting on a state of the remote side.
* A Prometheus registry is the list of its gauges; the values the handler sets are whole
  numbers, kept as integers.
-/

namespace AcronisExporter

/-! ## Data model (`src/task.go`, lines 18-50) -/

/-- The instant of a `time.Time`, in nanoseconds since the Unix epoch. -/
structure GoTime where
  unixNano : Int := 0
deriving DecidableEq, Repr

/-- Go `t.Before(u)`: the instant `t` is strictly earlier than `u`. -/
def GoTime.Before (t u : GoTime) : Bool := decide (t.unixNano < u.unixNano)

/-- The `Tenant` member of `Task`. -/
structure TaskTenant where
  Name : String := ""
  ID : String := ""
deriving DecidableEq, Repr

/-- The `Policy` member of `Task` (Go field `Type` is `Type_`). -/
structure TaskPolicy where
  ID : String := ""
  Type_ : String := ""
  Name : String := ""
deriving DecidableEq, Repr

/-- The `Context` member of `Task`. -/
structure TaskContext where
  MachineName : String := ""
  ProtectionPlanID : String := ""
deriving DecidableEq, Repr

/-- The `Result.Error.Context` member of `Task`. -/
structure TaskErrorContext where
  Cause : String := ""
  Effect : String := ""
deriving DecidableEq, Repr

/-- The `Result.Error` member of `Task`. -/
structure TaskError where
  Reason : String := ""
  Context : TaskErrorContext := {}
deriving DecidableEq, Repr

/-- The `Result` member of `Task`. -/
structure TaskResult where
  Code : String := ""
  Error : TaskError := {}
deriving DecidableEq, Repr

/-- Go `type Task struct`; the default value of every field is Go's zero value, so
`({} : Task)` is `Task{}`. -/
structure Task where
  ID : Int := 0
  UUID : String := ""
  Type_ : String := ""
  Tenant : TaskTenant := {}
  Policy : TaskPolicy := {}
  Context : TaskContext := {}
  Updated : GoTime := {}
  State : String := ""
  StartedByUser : String := ""
  CancelRequested : Bool := false
  Kind : Int := 0
  Result : TaskResult := {}
deriving DecidableEq, Repr

/-! ## Errors -/

/-- The error numbers the file system model can report. -/
inductive Errno
  | ENOENT
  | ENOTDIR
  | EISDIR
  | ENAMETOOLONG
  | EINVAL
deriving DecidableEq, Repr

/-- Values of Go's `error` that occur in the modelled code. -/
inductive Err
  | pathError (op path : String) (errno : Errno)
  | decode (msg : String)
  | other (msg : String)
deriving DecidableEq, Repr

/-- Go `syscall.Errno.Error()`. -/
def Errno.Error : Errno → String
  | .ENOENT => "no such file or directory"
  | .ENOTDIR => "not a directory"
  | .EISDIR => "is a directory"
  | .ENAMETOOLONG => "file name too long"
  | .EINVAL => "invalid argument"

/-- Go `err.Error()`; a path error prints as `op path: errno`. -/
def Err.Error : Err → String
  | .pathError op path errno => op ++ " " ++ path ++ ": " ++ errno.Error
  | .decode msg => msg
  | .other msg => msg

/-- Go `os.IsNotExist`: true exactly for an error whose underlying error is `ENOENT`. -/
def os.IsNotExist : Err → Bool
  | .pathError _ _ .ENOENT => true
  | _ => false

/-! ## `path/filepath` for the Unix separator -/

namespace filepath

/-- The fields of a path between separators, empty fields included. -/
def splitSlash : List Char → List (List Char)
  | [] => [[]]
  | c :: cs =>
    if c = '/' then [] :: splitSlash cs
    else
      match splitSlash cs with
      | [] => [[c]]
      | x :: xs => (c :: x) :: xs

/-- The path elements: the maximal runs of characters other than the separator. -/
def elems (p : List Char) : List (List Char) :=
  (splitSlash p).filter (fun e => e ≠ [])

/-- One turn of the loop of Go `filepath.Clean` on the path element `e`; `st` is the
output written so far as a stack of elements, the last one written first.

* a `.` element is dropped;
* a `..` element removes the last element written if there is one to backtrack over
  (Go `out.w > dotdot`: the output holds an element that is not a leading `..`),
  else is appended when the path is not rooted, else is dropped;
* any other element is appended. -/
def cleanStep (rooted : Bool) (st : List (List Char)) (e : List Char) : List (List Char) :=
  if e = ['.'] then st
  else if e = ['.', '.'] then
    match st with
    | top :: below =>
      if top ≠ ['.', '.'] then below
      else if !rooted then e :: st
      else st
    | [] => if !rooted then e :: st else st
  else e :: st

/-- Go `strings.Join(es, "/")`. -/
def joinSlash : List (List Char) → List Char
  | [] => []
  | [e] => e
  | e :: f :: es => e ++ '/' :: joinSlash (f :: es)

/-- The output buffer of `Clean`: the elements joined by the separator, after the
leading separator of a rooted path; the empty output is turned into `.`. -/
def render (rooted : Bool) (es : List (List Char)) : List Char :=
  if rooted then '/' :: joinSlash es
  else if es = [] then ['.']
  else joinSlash es

/-- Go `filepath.Clean` on the characters of the path. -/
def cleanChars (p : List Char) : List Char :=
  if p = [] then ['.']
  else
    let rooted := p.head? = some '/'
    render rooted ((elems p).foldl (cleanStep rooted) []).reverse

/-- Go `filepath.Join`: empty leading elements are skipped, the rest is joined with the
separator and cleaned; the join of nothing but empty elements is empty. -/
def joinChars : List (List Char) → List Char
  | [] => []
  | e :: es => if e = [] then joinChars es else cleanChars (joinSlash (e :: es))

/-- Go `filepath.Base`: the last element of the path, trailing separators removed;
`.` for the empty path and the separator for a path of separators only. -/
def baseChars (p : List Char) : List Char :=
  if p = [] then ['.']
  else
    let stripped := p.reverse.dropWhile (fun c => c = '/')
    let last := (stripped.takeWhile (fun c => c ≠ '/')).reverse
    if last = [] then ['/'] else last

/-- Go `filepath.Dir`: everything up to the last separator, cleaned. -/
def dirChars (p : List Char) : List Char :=
  cleanChars (p.reverse.dropWhile (fun c => c ≠ '/')).reverse

/-- Go `filepath.Clean`. -/
def Clean (p : String) : String := ⟨cleanChars p.data⟩

/-- Go `filepath.Join`. -/
def Join (es : List String) : String := ⟨joinChars (es.map String.data)⟩

/-- Go `filepath.Base`. -/
def Base (p : String) : String := ⟨baseChars p.data⟩

/-- Go `filepath.Dir`. -/
def Dir (p : String) : String := ⟨dirChars p.data⟩

end filepath

/-! ## The file system and the JSON codec -/

/-- The state of the file system: which paths are directories and what the regular
files hold.  The working directory `.` and the root `/` always exist. -/
structure FS (β : Type) where
  dirs : String → Bool
  files : String → Option β

namespace FS

variable {β : Type}

/-- The path names a directory. -/
def dirExists (fs : FS β) (p : String) : Bool :=
  p == "." || p == "/" || fs.dirs p

/-- The directories above `p`, nearest first (at most `fuel` of them). -/
def ancestors : Nat → String → List String
  | 0, _ => []
  | fuel + 1, p =>
    let d := filepath.Dir p
    if d = p then [] else d :: ancestors fuel d

/-- The error of looking up the path `p` down to its last element, whether or not
that exists.  When `Dir p` is a directory the last element is looked up in it, and a
name of more than 255 bytes gives `ENAMETOOLONG`.  Else the lookup ends at the topmost
directory of the path that does not exist: `ENAMETOOLONG` when its name has more than
255 bytes, `ENOTDIR` when a regular file stands there, `ENOENT` when nothing does. -/
def parentErrno (fs : FS β) (p : String) : Option Errno :=
  if p = "" then some .ENOENT
  else if fs.dirExists (filepath.Dir p) then
    if 255 < (filepath.Base p).utf8ByteSize then some .ENAMETOOLONG else none
  else
    match (ancestors p.length p).reverse.find? (fun a => !fs.dirExists a) with
    | none => some .ENOENT
    | some a =>
      if 255 < (filepath.Base a).utf8ByteSize then some .ENAMETOOLONG
      else if (fs.files a).isSome then some .ENOTDIR
      else some .ENOENT

/-- The file system with the regular file `p` holding `c`. -/
def put (fs : FS β) (p : String) (c : β) : FS β :=
  { fs with files := fun q => if q = p then some c else fs.files q }

/-- The file system without the regular file `p`. -/
def remove (fs : FS β) (p : String) : FS β :=
  { fs with files := fun q => if q = p then none else fs.files q }

/-- The file system with the directory `p`. -/
def addDir (fs : FS β) (p : String) : FS β :=
  { fs with dirs := fun q => if q = p then true else fs.dirs q }

end FS

/-- The error of a path that is refused before any directory is looked at: Go returns
`EINVAL` for a path with a NUL byte, the empty path does not exist, and a path of 4096
bytes or more is too long (the limits are those of Linux: 255 bytes for a name, 4096 for
a path with its terminator). -/
def pathErrno (p : String) : Option Errno :=
  if Char.ofNat 0 ∈ p.data then some .EINVAL
  else if p = "" then some .ENOENT
  else if 4096 ≤ p.utf8ByteSize then some .ENAMETOOLONG
  else none

/-- What an open for reading yields: the contents of a regular file, or a directory
(Go opens a directory read-only without error; reading from it fails). -/
inductive Handle (β : Type)
  | regular (bytes : β)
  | directory

/-- Go `lockedfile.OpenFile(path, os.O_RDONLY, 0644)`. -/
def lockedfile.OpenFileRead {β : Type} (fs : FS β) (path : String) : Except Err (Handle β) :=
  match pathErrno path with
  | some errno => .error (.pathError "open" path errno)
  | none =>
    if fs.dirExists path then .ok .directory
    else
      match fs.parentErrno path with
      | some errno => .error (.pathError "open" path errno)
      | none =>
        match fs.files path with
        | none => .error (.pathError "open" path .ENOENT)
        | some bytes => .ok (.regular bytes)

/-- Go `lockedfile.OpenFile(path, os.O_CREATE|os.O_TRUNC|os.O_WRONLY, 0644)`: whether
the file can be opened for writing (created when absent, truncated when present). -/
def lockedfile.OpenFileWrite {β : Type} (fs : FS β) (path : String) : Except Err Unit :=
  match pathErrno path with
  | some errno => .error (.pathError "open" path errno)
  | none =>
    if fs.dirExists path then .error (.pathError "open" path .EISDIR)
    else
      match fs.parentErrno path with
      | some errno => .error (.pathError "open" path errno)
      | none => .ok ()

/-- The `encoding/json` encoder and decoder for `Task`, taken as a parameter.  `β` is
the type of file contents.  `marshalErr` is the error of marshalling a task (Go refuses
a time whose year is outside 0-9999; the other fields are integers, strings and a
boolean, which always marshal), `encode` the bytes `Encode` writes when there is none,
`empty` the contents of a file of no bytes.  `decode` returns the task the decoder
leaves in its target together with the error, as Go `Decode(&t)` does. -/
structure TaskCodec (β : Type) where
  encode : Task → β
  marshalErr : Task → Option Err
  empty : β
  decode : β → Task × Option Err
  decode_encode : ∀ t, marshalErr t = none → decode (encode t) = (t, none)

/-- Go `json.NewDecoder(f).Decode(&t)` into a zero `t`: reading from a directory fails
and leaves `t` as it was. -/
def TaskCodec.Decode {β : Type} (J : TaskCodec β) (path : String) : Handle β → Task × Option Err
  | .regular bytes => J.decode bytes
  | .directory => ({}, some (.pathError "read" path .EISDIR))

/-- Go `os.MkdirAll(path, 0755)`: the empty path does not exist, there is nothing to do
for a directory, a regular file gives `ENOTDIR`, else the parent is made first and then
the directory itself, where `mkdir` refuses a path with a NUL byte or of 4096 bytes or
more, and a name of more than 255 bytes. -/
def os.MkdirAll {β : Type} : Nat → String → FS β → Option Err × FS β
  | 0, path, fs => (some (.pathError "mkdir" path .ENOENT), fs)
  | fuel + 1, path, fs =>
    if path = "" then (some (.pathError "mkdir" path .ENOENT), fs)
    else if fs.dirExists path then (none, fs)
    else if (fs.files path).isSome then (some (.pathError "mkdir" path .ENOTDIR), fs)
    else
      match os.MkdirAll fuel (filepath.Dir path) fs with
      | (some err, fs1) => (some err, fs1)
      | (none, fs1) =>
        match pathErrno path with
        | some errno => (some (.pathError "mkdir" path errno), fs1)
        | none =>
          if 255 < (filepath.Base path).utf8ByteSize then
            (some (.pathError "mkdir" path .ENAMETOOLONG), fs1)
          else (none, fs1.addDir path)

/-! ## Cache key policy (`src/cache.go`) -/

/-- Go `type tgtStr string`. -/
abbrev tgtStr := String

/-- Go `type cacheConfig struct`. -/
structure cacheConfig where
  cacheDir : String
  taskToTarget : Task → tgtStr
  targetToPath : tgtStr → String

/-- Go `func (cfg cacheConfig) taskPath(task Task) string`. -/
def cacheConfig.taskPath (cfg : cacheConfig) (task : Task) : String :=
  cfg.targetToPath (cfg.taskToTarget task)

/-- Go `stdTargetToCachePathFunc`. -/
def stdTargetToCachePathFunc (cacheDir : String) : tgtStr → String :=
  fun tgt => filepath.Join [cacheDir, tgt ++ ".json"]

/-- Go `ensureCachePath`. -/
def ensureCachePath {β : Type} (taskPath : tgtStr → String) (fs : FS β) : Option Err × FS β :=
  let dir := filepath.Dir (taskPath "junk")
  os.MkdirAll (dir.length + 1) dir fs

/-- Go `stdCachePathFunc`: the config, and the result of making its directory. -/
def stdCachePathFunc {β : Type} (cacheDir : String) (f : Task → tgtStr) (fs : FS β) :
    (cacheConfig × Option Err) × FS β :=
  let ret : cacheConfig :=
    { cacheDir := cacheDir, taskToTarget := f, targetToPath := stdTargetToCachePathFunc cacheDir }
  let r := ensureCachePath ret.targetToPath fs
  ((ret, r.1), r.2)

/-- Go `cacheByPolicy`. -/
def cacheByPolicy {β : Type} (cacheDir : String) (fs : FS β) : (cacheConfig × Option Err) × FS β :=
  stdCachePathFunc cacheDir (fun task => task.Policy.ID) fs

/-- Go `cacheByUuid`. -/
def cacheByUuid {β : Type} (cacheDir : String) (fs : FS β) : (cacheConfig × Option Err) × FS β :=
  stdCachePathFunc cacheDir (fun task => task.UUID) fs

/-- Go `cacheByTenantName`. -/
def cacheByTenantName {β : Type} (cacheDir : String) (fs : FS β) :
    (cacheConfig × Option Err) × FS β :=
  stdCachePathFunc cacheDir
    (fun task => if task.Tenant.Name ≠ "" then task.Tenant.Name else task.Tenant.ID) fs

/-! ## Cache store (`src/task.go`, lines 53-84) -/

/-- Go `writeTask`: nothing is done for a path whose base name is `.json`; else the file
is opened (created or truncated to no bytes) and `Encode` marshals the task: when that
fails its error is returned and the file is left empty, else the encoded task is
written to the file. -/
def writeTask {β : Type} (J : TaskCodec β) (t : Task) (cfg : cacheConfig) (fs : FS β) :
    Option Err × FS β :=
  let filename := cfg.taskPath t
  if filepath.Base filename = ".json" then (none, fs)
  else
    match lockedfile.OpenFileWrite fs filename with
    | .error err => (some err, fs)
    | .ok _ =>
      match J.marshalErr t with
      | some err => (some err, fs.put filename J.empty)
      | none => (none, fs.put filename (J.encode t))

/-- Go `readTask`: the zero task and the error when the open fails, else what the
decoder leaves in `t` and the decoder's error. -/
def readTask {β : Type} (J : TaskCodec β) (path : String) (fs : FS β) : Task × Option Err :=
  match lockedfile.OpenFileRead fs path with
  | .error err => ({}, some err)
  | .ok f => J.Decode path f

/-! ## Pipeline combinators (`src/task.go`, lines 104-154) -/

/-- What a pipeline stage runs in: the file system and whatever else (`ext`) the
stages and the remote collaborator act on. -/
structure World (β ρ : Type) where
  fs : FS β
  ext : ρ

/-- Go `type taskPipelineFunc func(Task) error`, over the state `σ` the stage acts on. -/
abbrev taskPipelineFunc (σ : Type) := Task → σ → Option Err × σ

/-- Go `writeTaskPipeline`. -/
def writeTaskPipeline {β ρ : Type} (J : TaskCodec β) (cfg : cacheConfig) :
    taskPipelineFunc (World β ρ) :=
  fun task w =>
    let r := writeTask J task cfg w.fs
    (r.1, { w with fs := r.2 })

/-- Go `splitByPolicySet`. -/
def splitByPolicySet {σ : Type} (policy noPolicy : taskPipelineFunc σ) : taskPipelineFunc σ :=
  fun t s => if t.Policy.ID = "" then noPolicy t s else policy t s

/-- Go `multiTaskPipelineFunc`: the children run in order on the same task, the first
error is returned at once. -/
def multiTaskPipelineFunc {σ : Type} : List (taskPipelineFunc σ) → taskPipelineFunc σ
  | [] => fun _ s => (none, s)
  | next :: rest => fun t s =>
    match next t s with
    | (some err, s1) => (some err, s1)
    | (none, s1) => multiTaskPipelineFunc rest t s1

/-- Go `filterUpdatesOnly`. -/
def filterUpdatesOnly {β ρ : Type} (J : TaskCodec β) (cfg : cacheConfig)
    (next : taskPipelineFunc (World β ρ)) : taskPipelineFunc (World β ρ) :=
  fun t w =>
    let path := cfg.taskPath t
    match readTask J path w.fs with
    | (_, some err) => if os.IsNotExist err then next t w else (some err, w)
    | (loaded, none) => if t.Updated.Before loaded.Updated then (none, w) else next t w

/-! ## Remote walker (`src/task.go`, lines 156-247) -/

/-- Go `url.Values`, as the list of its keys with their values. -/
abbrev Values := List (String × List String)

/-- Go `url.Values.Del`. -/
def Values.Del (v : Values) (key : String) : Values :=
  v.filter (fun kv => kv.1 ≠ key)

/-- Go `url.Values.Set`: the key is given the single value. -/
def Values.Set (v : Values) (key value : String) : Values :=
  Values.Del v key ++ [(key, [value])]

/-- Go `url.Values.Get`: the first value of the key, or the empty string. -/
def Values.Get (v : Values) (key : String) : String :=
  match v.find? (fun kv => kv.1 = key) with
  | some (_, value :: _) => value
  | _ => ""

/-- The `respData` of `getTasks`, as the JSON decoder of `Call` fills it. -/
structure TasksResponse where
  Tasks : List Task := []
  After : String := ""
  ErrorMessage : String := ""

/-- The remote collaborator: what `a.Call(ctx, http.MethodGet, "api/task_manager/v2/tasks",
nil, query, nil, &respData)` returns for a query, the status code, the decoded body and
the error, acting on a state `σ` of its own. -/
abbrev RemoteCall (σ : Type) := Values → σ → (Int × TasksResponse × Option Err) × σ

/-- Go `getTasks`. -/
def getTasks {σ : Type} (call : RemoteCall σ) (query : Values) (s : σ) :
    (List Task × String × Option Err) × σ :=
  match call query s with
  | ((_, _, some err), s1) => (([], "", some err), s1)
  | ((statusCode, respData, none), s1) =>
    if statusCode ≠ 200 then
      (([], "", some (.other ("error status " ++ toString statusCode ++ " : " ++
        respData.ErrorMessage))), s1)
    else ((respData.Tasks, respData.After, none), s1)

/-- A Go run-time panic of `walkTasks`. -/
inductive Panic
  | indexOutOfRange (index length : Nat)
  | sliceBoundsOutOfRange (bound length : Nat)
deriving DecidableEq, Repr

/-- How a call ends: it returns its `error`, or it panics. -/
inductive Outcome
  | returned (err : Option Err)
  | panicked (p : Panic)
deriving DecidableEq, Repr

/-- The loop `for _, task := range newTasks` of `walkTasks`: the first error ends it. -/
def drainTasks {σ : Type} (next : taskPipelineFunc σ) : List Task → σ → Option Err × σ
  | [], s => (none, s)
  | task :: rest, s =>
    match next task s with
    | (some err, s1) => (some err, s1)
    | (none, s1) => drainTasks next rest s1

/-- The loop `for after != ""` of `walkTasks` (lines 197-219), at most `fuel` turns.  The
log line at the head of the body evaluates `after[:16]` and then `newTasks[0]` for the
page fetched before; then the next page is fetched with `after` and `limit` and drained.
The result is `none` when the turns run out. -/
def walkLoop {σ : Type} (call : RemoteCall σ) (limitStr : String) (next : taskPipelineFunc σ) :
    Nat → List Task → String → σ → Option (Outcome × σ)
  | 0, _, _, _ => none
  | fuel + 1, newTasks, after, s =>
    if after = "" then some (.returned none, s)
    else if after.utf8ByteSize < 16 then
      some (.panicked (.sliceBoundsOutOfRange 16 after.utf8ByteSize), s)
    else
      match newTasks with
      | [] => some (.panicked (.indexOutOfRange 0 0), s)
      | _ :: _ =>
        let query := Values.Set (Values.Set [] "after" after) "limit" limitStr
        match getTasks call query s with
        | ((_, _, some err), s1) => some (.returned (some err), s1)
        | ((tasks, after1, none), s1) =>
          match drainTasks next tasks s1 with
          | (some err, s2) => some (.returned (some err), s2)
          | (none, s2) => walkLoop call limitStr next fuel tasks after1 s2

/-- Go `walkTasks`; a `nil` query is `none`.  The first page is fetched, the log line
(lines 186-189) evaluates `newTasks[0]`, the page is drained, and the loop follows. -/
def walkTasks {σ : Type} (call : RemoteCall σ) (query : Option Values) (limit : Int)
    (next : taskPipelineFunc σ) (fuel : Nat) (s : σ) : Option (Outcome × σ) :=
  let query := query.getD []
  let limitStr := if limit > 0 then toString limit else "100"
  let query := Values.Del (Values.Set (Values.Set query "lod" "full") "limit" limitStr) "after"
  match getTasks call query s with
  | ((_, _, some err), s1) => some (.returned (some err), s1)
  | ((newTasks, after, none), s1) =>
    match newTasks with
    | [] => some (.panicked (.indexOutOfRange 0 0), s1)
    | _ :: _ =>
      match drainTasks next newTasks s1 with
      | (some err, s2) => some (.returned (some err), s2)
      | (none, s2) => walkLoop call limitStr next fuel newTasks after s2

/-! ## The ingestion pipeline of `main` (`src/main.go`, lines 42-54) -/

/-- The `cachePipeline` of `main`, for the two configs made there. -/
def cachePipeline {β ρ : Type} (J : TaskCodec β) (policyCfg tenantCfg : cacheConfig) :
    taskPipelineFunc (World β ρ) :=
  multiTaskPipelineFunc
    [ filterUpdatesOnly J policyCfg (writeTaskPipeline J policyCfg),
      filterUpdatesOnly J policyCfg (writeTaskPipeline J tenantCfg) ]

/-- The two configs `main` makes for the flag value `cacheDir` (lines 42-49), with the
directories they create; `none` when `log.Fatalln` ends the program. -/
def mainCaches {β : Type} (cacheDir : String) (fs : FS β) :
    Option (cacheConfig × cacheConfig) × FS β :=
  match cacheByPolicy (filepath.Join [cacheDir, "byPolicy"]) fs with
  | ((_, some _), fs1) => (none, fs1)
  | ((policyCfg, none), fs1) =>
    match cacheByTenantName (filepath.Join [cacheDir, "byTenant"]) fs1 with
    | ((_, some _), fs2) => (none, fs2)
    | ((tenantCfg, none), fs2) => (some (policyCfg, tenantCfg), fs2)

/-! ## Cache pruning (`src/cache.go`, lines 19-26) -/

/-- Go `t.Add(d)` for a duration `d` in nanoseconds (far from the ends of the range of
`time.Time`). -/
def GoTime.Add (t : GoTime) (d : Int) : GoTime := ⟨t.unixNano + d⟩

/-- Go `t.After(u)`: the instant `t` is strictly later than `u`. -/
def GoTime.After (t u : GoTime) : Bool := decide (u.unixNano < t.unixNano)

/-- Go `t.Unix()`: the seconds since the epoch, rounded down. -/
def GoTime.Unix (t : GoTime) : Int := Int.fdiv t.unixNano 1000000000

/-- What the walk function reads of the `os.FileInfo` it is handed. -/
structure FileInfo where
  ModTime : GoTime
deriving DecidableEq, Repr

/-- Go `os.Remove(path)` on a path that does not name a directory: a regular file is
removed, a missing one gives the error of the unlink.  Whether a directory can be
removed depends on its being empty, which the file system model does not tell: the
result is `none` for a directory. -/
def os.Remove {β : Type} (path : String) (fs : FS β) : Option (Option Err × FS β) :=
  match pathErrno path with
  | some errno => some (some (.pathError "remove" path errno), fs)
  | none =>
    if fs.dirExists path then none
    else
      match fs.parentErrno path with
      | some errno => some (some (.pathError "remove" path errno), fs)
      | none =>
        match fs.files path with
        | none => some (some (.pathError "remove" path .ENOENT), fs)
        | some _ => some (none, fs.remove path)

/-- Go `pruneCache(age)`, the walk function it returns applied to `path` and its
`info` at the time `now`: when `info.ModTime().Add(age)` is not after `now` it returns
`nil`, else it returns what `os.Remove(path)` returns. -/
def pruneCache {β : Type} (age : Int) (now : GoTime) (path : String) (info : FileInfo)
    (fs : FS β) : Option (Option Err × FS β) :=
  if !(info.ModTime.Add age).After now then some (none, fs)
  else os.Remove path fs

/-! ## The probe handler (`src/prometheus.go`) -/

/-- A gauge as it is gathered: its full name, its labels and its value.  The values the
handler sets are small integers, a time in seconds and a duration in milliseconds. -/
structure Metric where
  name : String
  labels : List (String × String) := []
  value : Int := 0
deriving DecidableEq, Repr

/-- A `prometheus.Registry`: the collectors registered so far, in order. -/
abbrev Registry := List Metric

/-- Go `registry.Register(c)`: an error (`none`) when a collector of that name is
registered already. -/
def Registry.Register (registry : Registry) (m : Metric) : Option Registry :=
  if registry.any (fun r => r.name == m.name) then none else some (registry ++ [m])

/-- Go `gauge.Set(v)` for the registered gauge of that name. -/
def Registry.Set (registry : Registry) (name : String) (v : Int) : Registry :=
  registry.map (fun r => if r.name = name then { r with value := v } else r)

/-- Go `registerPolicyState`: the gauge `acronis_policy_state` with the value of the
result code in the map `ok: 0, warning: 1, error: 2`, and 3 for a code not in it. -/
def registerPolicyState (task : Task) : Metric :=
  { name := "acronis_policy_state",
    value :=
      if task.Result.Code = "ok" then 0
      else if task.Result.Code = "warning" then 1
      else if task.Result.Code = "error" then 2
      else 3 }

/-- Go `taskToRegistry`: the gauges `acronis_policy_info`, `acronis_policy_error` and
`acronis_lastrun_timestamp` are registered in that order; `none` is the error of the
first registration that fails. -/
def taskToRegistry (registry : Registry) (task : Task) : Option Registry :=
  let metadata : Metric :=
    { name := "acronis_policy_info",
      labels := [("tenantId", task.Tenant.ID), ("tenantName", task.Tenant.Name),
        ("policyType", task.Policy.Type_), ("policyId", task.Policy.ID),
        ("policyName", task.Policy.Name), ("machineName", task.Context.MachineName)],
      value := 1 }
  let policyError : Metric :=
    { name := "acronis_policy_error",
      labels := [("reason", task.Result.Error.Reason),
        ("cause", task.Result.Error.Context.Cause),
        ("effect", task.Result.Error.Context.Effect)],
      value := 1 }
  let lastRun : Metric := { name := "acronis_lastrun_timestamp", value := task.Updated.Unix }
  match registry.Register metadata with
  | none => none
  | some r1 =>
    match r1.Register policyError with
    | none => none
    | some r2 => r2.Register lastRun

/-- What the probe handler answers: status 500 with an empty body, or the metrics of its
registry. -/
inductive ProbeResponse
  | internalServerError
  | metrics (gathered : List Metric)
deriving DecidableEq, Repr

/-- The end of `probeHandler` (lines 52-58): the policy state is registered, the
duration is set and the registry is served. -/
def probeFinish (registry : Registry) (task : Task) (elapsedMs : Int) : ProbeResponse :=
  match registry.Register (registerPolicyState task) with
  | none => .internalServerError
  | some r => .metrics (r.Set "probe_duration_seconds" elapsedMs)

/-- Go `probeHandler(path)` on a request with the query parameter `target`, answered
`elapsedMs` milliseconds after it came in. -/
def probeHandler {β : Type} (J : TaskCodec β) (path : tgtStr → String) (target : String)
    (elapsedMs : Int) (fs : FS β) : ProbeResponse :=
  match Registry.Register [] { name := "probe_success" } with
  | none => .internalServerError
  | some r1 =>
    match r1.Register { name := "probe_duration_seconds" } with
    | none => .internalServerError
    | some r2 =>
      match readTask J (path target) fs with
      | (task, some _) =>
        probeFinish (r2.Set "probe_success" 0)
          { task with Result := { task.Result with Code := "nomatch" } } elapsedMs
      | (task, none) =>
        match taskToRegistry (r2.Set "probe_success" 1) task with
        | none => .internalServerError
        | some r3 => probeFinish r3 task elapsedMs

/-! ## Authentication (`src/acronis.go`, lines 51-59, 124-160, 183-208) -/

/-- Go `type AcronisAPI struct`; the base URL is kept as its text. -/
structure AcronisAPI where
  timeout : Int := 0
  base : String := ""
  token : String := ""
  idToken : String := ""
  clientID : String := ""
  rootTenant : String := ""
  expires : Int := 0
deriving DecidableEq, Repr

/-- The `resp` of `Auth`, as the JSON decoder of `Call` fills it. -/
structure AuthResponse where
  Token : String := ""
  TokenType : String := ""
  Expires : Int := 0
  ID : String := ""
  RefreshToken : String := ""
  Error : String := ""
  ErrorDescription : String := ""
deriving DecidableEq, Repr

/-- The `respData` of `clientTenant`, as the JSON decoder of `Call` fills it. -/
structure ClientResponse where
  Type_ : String := ""
  TenantID : String := ""
  Status : String := ""
  ErrorMessage : String := ""
deriving DecidableEq, Repr

/-- The remote collaborator of `Auth`, acting on a state `σ` of its own: what `a.Call`
returns (status code, decoded body, error) for the token request with the basic
authorization of the client id and secret, and for the client request, which carries the
bearer token `a.token` and names `a.clientID`. -/
structure AuthRemote (σ : Type) where
  tokenCall : String → String → σ → (Int × AuthResponse × Option Err) × σ
  clientCall : String → String → σ → (Int × ClientResponse × Option Err) × σ

/-- Go `clientTenant`. -/
def AcronisAPI.clientTenant {σ : Type} (remote : AuthRemote σ) (a : AcronisAPI) (s : σ) :
    (Option Err × AcronisAPI) × σ :=
  match remote.clientCall a.token a.clientID s with
  | ((_, _, some err), s1) => ((some err, a), s1)
  | ((statusCode, respData, none), s1) =>
    if statusCode ≠ 200 then
      ((some (.other ("error status " ++ toString statusCode ++ " : " ++
        respData.ErrorMessage)), a), s1)
    else ((none, { a with rootTenant := respData.TenantID }), s1)

/-- Go `Auth`: the error and the `AcronisAPI` value after the call. -/
def AcronisAPI.Auth {σ : Type} (remote : AuthRemote σ) (a : AcronisAPI)
    (clientID clientSecret : String) (s : σ) : (Option Err × AcronisAPI) × σ :=
  match remote.tokenCall clientID clientSecret s with
  | ((_, _, some err), s1) =>
    ((some (.other ("problem running request: " ++ err.Error)), a), s1)
  | ((status, resp, none), s1) =>
    if status < 200 ∨ status ≥ 300 then
      ((some (.other ("auth rejected: status [" ++ toString status ++ "] [" ++ resp.Error ++
        "] message: " ++ resp.ErrorDescription)), a), s1)
    else
      AcronisAPI.clientTenant remote
        { a with clientID := clientID, token := resp.Token, expires := resp.Expires,
                 idToken := resp.ID } s1

/-! ## Vocabulary for stating how a walk goes on and how it fails -/

/-- The `limitStr` of `walkTasks`. -/
def limitStrOf (limit : Int) : String := if limit > 0 then toString limit else "100"

/-- The query of the first fetch of `walkTasks`. -/
def firstFetchQuery (query : Option Values) (limit : Int) : Values :=
  Values.Del (Values.Set (Values.Set (query.getD []) "lod" "full") "limit" (limitStrOf limit))
    "after"

/-- The query of a fetch in the loop of `walkTasks`. -/
def laterFetchQuery (after limitStr : String) : Values :=
  Values.Set (Values.Set [] "after" after) "limit" limitStr

/-- The variables of `walkTasks` at the head of a turn of its loop: the page fetched
last, its cursor, and the state. -/
structure LoopState (σ : Type) where
  newTasks : List Task
  after : String
  s : σ
deriving DecidableEq

/-- The first page is fetched without error, has a task and is drained without error:
the variables the loop is entered with. -/
def firstPage {σ : Type} (call : RemoteCall σ) (query : Option Values) (limit : Int)
    (next : taskPipelineFunc σ) (s : σ) : Option (LoopState σ) :=
  match getTasks call (firstFetchQuery query limit) s with
  | ((_, _, some _), _) => none
  | ((tasks, after, none), s1) =>
    if tasks = [] then none
    else
      match drainTasks next tasks s1 with
      | (some _, _) => none
      | (none, s2) => some ⟨tasks, after, s2⟩

/-- A turn of the loop that goes on: the cursor is not empty, the log line does not
panic, the page is fetched without error and drained without error.  The result is the
variables after the turn, and `none` for any other turn. -/
def goodTurn {σ : Type} (call : RemoteCall σ) (limitStr : String) (next : taskPipelineFunc σ)
    (st : LoopState σ) : Option (LoopState σ) :=
  if st.after = "" ∨ st.after.utf8ByteSize < 16 ∨ st.newTasks = [] then none
  else
    match getTasks call (laterFetchQuery st.after limitStr) st.s with
    | ((_, _, some _), _) => none
    | ((tasks, after1, none), s1) =>
      match drainTasks next tasks s1 with
      | (some _, _) => none
      | (none, s2) => some ⟨tasks, after1, s2⟩

/-- So many turns of the loop that go on, one after the other. -/
def goodTurns {σ : Type} (call : RemoteCall σ) (limitStr : String) (next : taskPipelineFunc σ) :
    Nat → LoopState σ → Option (LoopState σ)
  | 0, st => some st
  | k + 1, st => (goodTurn call limitStr next st).bind (goodTurns call limitStr next k)

/-- The page asked for with `query` in the state `s` fails with the error `e` in the
state `sf`: either the fetch returns `e`, or the fetch returns a page and the pipeline
returns `nil` for the tasks `pre` of the page and `e` for the task `t` after them. -/
def pageFails {σ : Type} (call : RemoteCall σ) (next : taskPipelineFunc σ) (query : Values)
    (s : σ) (e : Err) (sf : σ) : Prop :=
  (∃ tasks after, getTasks call query s = ((tasks, after, some e), sf)) ∨
  (∃ pre t post after s1, getTasks call query s = ((pre ++ t :: post, after, none), s1) ∧
    (drainTasks next pre s1).1 = none ∧ next t (drainTasks next pre s1).2 = (some e, sf))

/-! ## Vocabulary for the filtered write on one entry path -/

/-- The world with the entry at `p` holding the encoding of `t`. -/
def written {β ρ : Type} (J : TaskCodec β) (w : World β ρ) (p : String) (t : Task) :
    World β ρ :=
  { w with fs := w.fs.put p (J.encode t) }

/-- The filtered write of `t` to the entry path `p` takes place in `w`: the write is not
skipped and the file can be opened, and the read before it finds nothing, or a task that
is not newer than `t`. -/
def acceptsTask {β ρ : Type} (J : TaskCodec β) (w : World β ρ) (p : String) (t : Task) :
    Prop :=
  filepath.Base p ≠ ".json" ∧ lockedfile.OpenFileWrite w.fs p = .ok () ∧
  match readTask J p w.fs with
  | (_, some err) => os.IsNotExist err = true
  | (loaded, none) => ¬ t.Updated.unixNano < loaded.Updated.unixNano

/-! ## Vocabulary for stating what a fan-out does -/

/-- The state reached when the stages have run in order on the task, each on the state
the one before it left. -/
def stateAfter {σ : Type} (stages : List (taskPipelineFunc σ)) (t : Task) (s : σ) : σ :=
  stages.foldl (fun s1 stage => (stage t s1).2) s

/-- Every stage returns `nil` when the stages run in order on the task, each on the
state the one before it left. -/
def allNil {σ : Type} : List (taskPipelineFunc σ) → Task → σ → Prop
  | [], _, _ => True
  | stage :: rest, t, s => (stage t s).1 = none ∧ allNil rest t (stage t s).2

/-! ## A codec and a file system for worked examples -/

/-- File contents for worked examples: the encoding of a task, or bytes that are not a
JSON value. -/
inductive Bytes
  | json (t : Task)
  | junk (raw : String)
deriving DecidableEq, Repr

/-- Go `Time.MarshalJSON` refuses a time whose year is outside 0-9999; the year is taken
in UTC, where the year 0 begins 62167219200 seconds before the epoch and the year 10000
begins 253402300800 seconds after it. -/
def GoTime.marshalErr (t : GoTime) : Option Err :=
  if t.unixNano < -62167219200000000000 ∨ 253402300800000000000 ≤ t.unixNano then
    some (.other ("json: error calling MarshalJSON for type time.Time: " ++
      "Time.MarshalJSON: year outside of range [0,9999]"))
  else none

/-- A codec on `Bytes`: a task marshals when its time does; a file of no bytes ends the
decoder with `EOF`, any other syntax error is an invalid character, and both leave the
target zero. -/
def exampleCodec : TaskCodec Bytes where
  encode := .json
  marshalErr := fun t => t.Updated.marshalErr
  empty := .junk ""
  decode := fun b =>
    match b with
    | .json t => (t, none)
    | .junk raw => ({}, some (.decode (if raw = "" then "EOF" else "invalid character")))
  decode_encode := fun _ _ => rfl

/-- The file system with no directory but `.` and `/` and no file. -/
def emptyFS : FS Bytes := ⟨fun _ => false, fun _ => none⟩

/-- The file system after `main` made its two namespaces under `cache`. -/
def cacheFS : FS Bytes := (mainCaches "cache" emptyFS).2

/-- The `policyCfg` of `main` for the cache directory `cache`. -/
def examplePolicyCfg : cacheConfig := (cacheByPolicy "cache/byPolicy" emptyFS).1.1

/-- The `tenantCfg` of `main` for the cache directory `cache`. -/
def exampleTenantCfg : cacheConfig := (cacheByTenantName "cache/byTenant" emptyFS).1.1

/-- A task of policy `p1` and tenant `acme`, updated at `updated`. -/
def exampleTask (uuid : String) (updated : Int) : Task :=
  { UUID := uuid, Policy := { ID := "p1" }, Tenant := { Name := "acme", ID := "t1" },
    Updated := ⟨updated⟩, State := "completed", Result := { Code := "ok" } }

/-- The config of the `badDest` case of `TestWriteTask`: the directory `missing` does
not exist. -/
def badDestCfg : cacheConfig :=
  { cacheDir := "missing", taskToTarget := fun _ => "badDest",
    targetToPath := stdTargetToCachePathFunc "missing" }

/-- The world of the worked examples: the two namespaces of `main`, nothing else. -/
def cacheWorld : World Bytes Unit := ⟨cacheFS, ()⟩

/-- A task of the given policy and of tenant `acme`, updated at `updated`. -/
def policyTask (uuid policyID : String) (updated : Int) : Task :=
  { UUID := uuid, Policy := { ID := policyID }, Tenant := { Name := "acme", ID := "t1" },
    Updated := ⟨updated⟩, State := "completed", Result := { Code := "ok" } }

/-- The `cachePipeline` of `main` for the cache directory `cache`. -/
def examplePipeline : taskPipelineFunc (World Bytes Unit) :=
  cachePipeline exampleCodec examplePolicyCfg exampleTenantCfg

/-! ## A scripted remote collaborator and a recording stage -/

/-- One page of the remote stream: its tasks and the cursor that comes with it. -/
structure Page where
  tasks : List Task
  cursor : String
deriving DecidableEq, Repr

/-- The state of a scripted run: the pages the remote has yet to serve, the queries of
the fetches made so far, and the tasks the pipeline was invoked on so far. -/
structure WalkLog where
  pages : List Page
  fetches : List Values := []
  invoked : List Task := []
deriving DecidableEq, Repr

/-- The remote that serves the pages in order with status 200, one per fetch, and an
empty page with the empty cursor once they are used up; it records each query. -/
def scriptedRemote : RemoteCall WalkLog :=
  fun query s =>
    match s.pages with
    | [] => ((200, {}, none), { s with fetches := s.fetches ++ [query] })
    | page :: rest =>
      ((200, { Tasks := page.tasks, After := page.cursor }, none),
        { s with pages := rest, fetches := s.fetches ++ [query] })

/-- The stage that never fails and records the task it was invoked on. -/
def recordingStage : taskPipelineFunc WalkLog :=
  fun t s => (none, { s with invoked := s.invoked ++ [t] })

/-- The query of the first fetch of `walkTasks` for a `nil` query and the limit 5000. -/
def firstQuery : Values := [("lod", ["full"]), ("limit", ["5000"])]

/-- The query of a later fetch of `walkTasks` for the limit 5000. -/
def afterQuery (cursor : String) : Values := [("after", [cursor]), ("limit", ["5000"])]

/-- The rest of a scripted stream can be walked without a panic: `prev` and `after` are
the tasks and the cursor of the page fetched last.  At the end of the stream the cursor is
empty; before it, the cursor has at least 16 bytes and the page fetched last has a task. -/
def streamOK : List Task → String → List Page → Prop
  | _, after, [] => after = ""
  | prev, after, page :: rest =>
    16 ≤ after.utf8ByteSize ∧ prev ≠ [] ∧ streamOK page.tasks page.cursor rest

/-- The queries of the fetches that follow the pages fetched with the cursor `after`. -/
def laterQueries : String → List Page → List Values
  | _, [] => []
  | after, page :: rest => afterQuery after :: laterQueries page.cursor rest

/-- The cache of `main` with the entry of policy `p1` holding bytes that are not a JSON
value. -/
def corruptFS : FS Bytes := cacheFS.put "cache/byPolicy/p1.json" (.junk "not json")

/-- The cache of `main` with the entry of policy `p1` holding a task updated at 5. -/
def entryFS : FS Bytes := cacheFS.put "cache/byPolicy/p1.json" (.json (exampleTask "u1" 5))

/-- The standard config on the missing directory `missing` whose key is `../p1` for
every task. -/
def escapingCfg : cacheConfig :=
  { cacheDir := "missing", taskToTarget := fun _ => "../p1",
    targetToPath := stdTargetToCachePathFunc "missing" }

/-- File contents that tell the failures of `encoding/json` apart: the encoding of a
task; bytes that are not a JSON value; a JSON object with a member of the wrong type
(as in `{"uuid":"abc","id":"oops"}`), for which the decoder skips that member,
completes the rest as best it can and reports the mismatch: `filled` is the task it
leaves, `message` the text of its `UnmarshalTypeError`. -/
inductive JSONBytes
  | task (t : Task)
  | invalid (raw : String)
  | mistyped (filled : Task) (message : String)
deriving DecidableEq, Repr

/-- The codec on `JSONBytes`. -/
def jsonCodec : TaskCodec JSONBytes where
  encode := .task
  marshalErr := fun t => t.Updated.marshalErr
  empty := .invalid ""
  decode := fun b =>
    match b with
    | .task t => (t, none)
    | .invalid raw => ({}, some (.decode (if raw = "" then "EOF" else "invalid character")))
    | .mistyped filled message => (filled, some (.decode message))
  decode_encode := fun _ _ => rfl

/-- The cache directory `testdata/mock/byTask` with one file, the JSON object
`{"uuid":"abc","id":"oops"}`. -/
def mistypedFS : FS JSONBytes :=
  ⟨fun p => p == "testdata" || p == "testdata/mock" || p == "testdata/mock/byTask",
   fun p =>
    if p = "testdata/mock/byTask/abc.json" then
      some (.mistyped { UUID := "abc" }
        "json: cannot unmarshal string into Go struct field Task.id of type int64")
    else none⟩

/-- The remote of `TestAcronisAPI_Auth`: the token request is granted to the test user
and rejected with status 400 for anyone else; the client request is answered for the
valid token and rejected with status 401 without it. -/
def mockAuthRemote : AuthRemote Unit where
  tokenCall := fun user pass s =>
    if user = "testuser" ∧ pass = "hunter2" then
      ((200, { Token := "testAcronisValidToken", ID := "testAcronisValidTokenInstanceID",
               TokenType := "bearer", Expires := 60 }, none), s)
    else
      ((400, { Error := "invalid_request",
               ErrorDescription := "Authorization header value is not recognized" }, none), s)
  clientCall := fun token _ s =>
    if token = "testAcronisValidToken" then
      ((200, { Type_ := "api_client", TenantID := "c8e6259d-a4d7-4ffc-8614-79c1d143cc54",
               Status := "enabled" }, none), s)
    else ((401, { ErrorMessage := "OK" }, none), s)

/-- A remote that grants the token `fresh` and then fails the client request. -/
def clientFailsRemote : AuthRemote Unit where
  tokenCall := fun _ _ s => ((200, { Token := "fresh", Expires := 60 }, none), s)
  clientCall := fun _ _ s => ((503, {}, some (.other "error: service unavailable")), s)

/-- The remote that serves the pages in order and fails once they are used up; it
records each query. -/
def failingRemote : RemoteCall WalkLog :=
  fun query s =>
    match s.pages with
    | [] =>
      ((0, {}, some (.other "problem running request: timeout")),
        { s with fetches := s.fetches ++ [query] })
    | page :: rest =>
      ((200, { Tasks := page.tasks, After := page.cursor }, none),
        { s with pages := rest, fetches := s.fetches ++ [query] })

/-- The stage that records the task it was invoked on and fails for the task `bad`. -/
def failingStage : taskPipelineFunc WalkLog :=
  fun t s =>
    (if t.UUID = "bad" then some (.other "write failed") else none,
      { s with invoked := s.invoked ++ [t] })

/-! ## Vocabulary for the proofs -/

namespace filepath

/-- A path element that `Clean` copies to the output: not empty, without a separator,
and neither `.` nor `..`. -/
def realElem (x : List Char) : Prop :=
  x ≠ [] ∧ '/' ∉ x ∧ x ≠ ['.'] ∧ x ≠ ['.', '.']

/-- The stack of elements `Clean` has written at the end of its loop, last first. -/
def stackOf (p : List Char) : List (List Char) :=
  (elems p).foldl (cleanStep (p.head? = some '/')) []

/-- What `Clean` keeps of its output, `st` being the stack with the last element first:
every element is non-empty, has no separator and is not `.`; a `..` stands only in a
path that is not rooted and only above other `..`. -/
def goodStack (rooted : Bool) : List (List Char) → Prop
  | [] => True
  | e :: below =>
    (e ≠ [] ∧ '/' ∉ e ∧ e ≠ ['.']) ∧
    (e = ['.', '.'] → rooted = false ∧ ∀ b ∈ below, b = ['.', '.']) ∧
    goodStack rooted below

end filepath

/-- The entry at `p` holds the encoding of `c`, which marshals, and `p` can be opened. -/
def entryIs {β ρ : Type} (J : TaskCodec β) (w : World β ρ) (p : String) (c : Task) : Prop :=
  w.fs.files p = some (J.encode c) ∧ J.marshalErr c = none ∧
    lockedfile.OpenFileWrite w.fs p = .ok ()

/-! ## Facts about the path functions -/

/-- The path functions on the examples of the Go documentation and on paths of the
cache. -/
theorem filepath_examples :
    filepath.Clean "a/b/../c//./d/" = "a/c/d" ∧ filepath.Clean "/../a/.." = "/" ∧
    filepath.Clean "../../a/../.." = "../../.." ∧ filepath.Clean "" = "." ∧
    filepath.Clean "a/.." = "." ∧ filepath.Join ["a", "b/../c"] = "a/c" ∧
    filepath.Join ["", "x.json"] = "x.json" ∧ filepath.Join ["a/", ""] = "a" ∧
    filepath.Base "cache/byPolicy/.json" = ".json" ∧ filepath.Base "///" = "/" ∧
    filepath.Base "a/b/" = "b" ∧ filepath.Dir "cache/byPolicy/x.json" = "cache/byPolicy" ∧
    filepath.Dir "x.json" = "." ∧ filepath.Dir "/x.json" = "/" ∧
    filepath.Dir "a/b/" = "a/b" := by
  decide

namespace filepath

theorem splitSlash_ne_nil (p : List Char) : splitSlash p ≠ [] := by
  cases p with
  | nil => simp [splitSlash]
  | cons c cs =>
    unfold splitSlash
    split
    · simp
    · split <;> simp

theorem splitSlash_append_slash (a b : List Char) :
    splitSlash (a ++ '/' :: b) = splitSlash a ++ splitSlash b := by
  induction a with
  | nil => simp [splitSlash]
  | cons c cs ih =>
    by_cases hc : c = '/'
    · simp [splitSlash, hc, ih]
    · have h1 : splitSlash (c :: cs) =
          match splitSlash cs with
          | [] => [[c]]
          | x :: xs => (c :: x) :: xs := by
        rw [splitSlash]; simp [hc]
      have h2 : splitSlash (c :: (cs ++ '/' :: b)) =
          match splitSlash (cs ++ '/' :: b) with
          | [] => [[c]]
          | x :: xs => (c :: x) :: xs := by
        rw [splitSlash]; simp [hc]
      rw [List.cons_append, h2, h1, ih]
      cases hs : splitSlash cs with
      | nil => exact absurd hs (splitSlash_ne_nil cs)
      | cons x xs => simp

theorem splitSlash_of_not_mem (x : List Char) (hx : '/' ∉ x) : splitSlash x = [x] := by
  induction x with
  | nil => simp [splitSlash]
  | cons c cs ih =>
    have hc : c ≠ '/' := fun h => hx (by simp [h])
    have hcs : '/' ∉ cs := fun h => hx (by simp [h])
    rw [splitSlash]
    simp [hc, ih hcs]

theorem elems_append_slash (a b : List Char) : elems (a ++ '/' :: b) = elems a ++ elems b := by
  simp [elems, splitSlash_append_slash]

theorem elems_of_not_mem (x : List Char) (hx : '/' ∉ x) (hne : x ≠ []) : elems x = [x] := by
  simp [elems, splitSlash_of_not_mem x hx, hne]

theorem cleanStep_real (rooted : Bool) (st : List (List Char)) (x : List Char)
    (hx : realElem x) : cleanStep rooted st x = x :: st := by
  simp [cleanStep, hx.2.2.1, hx.2.2.2]

theorem joinSlash_snoc (es : List (List Char)) (x : List Char) (hes : es ≠ []) :
    joinSlash (es ++ [x]) = joinSlash es ++ '/' :: x := by
  induction es with
  | nil => exact absurd rfl hes
  | cons e rest ih =>
    cases rest with
    | nil => simp [joinSlash]
    | cons f rest2 =>
      have := ih (by simp)
      simp only [List.cons_append] at this ⊢
      simp [joinSlash, this]

theorem render_snoc (rooted : Bool) (es : List (List Char)) (x : List Char) :
    render rooted (es ++ [x]) =
      if es = [] then (if rooted then '/' :: x else x) else render rooted es ++ '/' :: x := by
  by_cases hes : es = []
  · subst hes
    cases rooted <;> simp [render, joinSlash]
  · cases rooted <;> simp [render, hes, joinSlash_snoc es x hes]

theorem dropWhile_slash_of_not_mem (x rest : List Char) (hx : '/' ∉ x) (hne : x ≠ []) :
    (x.reverse ++ rest).dropWhile (fun c => decide (c = '/')) = x.reverse ++ rest := by
  cases hr : x.reverse with
  | nil => exact absurd (by simpa using hr) hne
  | cons c cs =>
    have hmem : c ∈ x := by
      have : c ∈ x.reverse := by rw [hr]; simp
      simpa using this
    have hc : c ≠ '/' := by
      intro h
      rw [h] at hmem
      exact hx hmem
    simp [List.dropWhile, hc]

theorem takeWhile_not_slash_of_not_mem (x rest : List Char) (hx : '/' ∉ x) :
    (x.reverse ++ '/' :: rest).takeWhile (fun c => decide (c ≠ '/')) = x.reverse := by
  have hall : ∀ c ∈ x.reverse, (fun c => decide (c ≠ '/')) c = true := by
    intro c hc
    have hmem : c ∈ x := by simpa using hc
    have hc : c ≠ '/' := by
      intro h
      rw [h] at hmem
      exact hx hmem
    simpa using hc
  rw [List.takeWhile_append_of_pos hall]
  simp

theorem takeWhile_not_slash_self (x : List Char) (hx : '/' ∉ x) :
    x.reverse.takeWhile (fun c => decide (c ≠ '/')) = x.reverse := by
  rw [List.takeWhile_eq_self_iff]
  intro c hc
  have hmem : c ∈ x := by simpa using hc
  have hc : c ≠ '/' := by
    intro h
    rw [h] at hmem
    exact hx hmem
  simpa using hc

theorem baseChars_of_not_mem (x : List Char) (hx : '/' ∉ x) (hne : x ≠ []) :
    baseChars x = x := by
  have h1 := dropWhile_slash_of_not_mem x [] hx hne
  rw [List.append_nil] at h1
  unfold baseChars
  rw [if_neg hne]
  simp only []
  rw [h1, takeWhile_not_slash_self x hx, List.reverse_reverse, if_neg hne]

theorem baseChars_append_slash (p x : List Char) (hx : '/' ∉ x) (hne : x ≠ []) :
    baseChars (p ++ '/' :: x) = x := by
  have hrev : (p ++ '/' :: x).reverse = x.reverse ++ '/' :: p.reverse := by simp
  have hne2 : p ++ '/' :: x ≠ [] := by simp
  unfold baseChars
  rw [if_neg hne2]
  simp only []
  rw [hrev, dropWhile_slash_of_not_mem x _ hx hne, takeWhile_not_slash_of_not_mem x _ hx,
    List.reverse_reverse, if_neg hne]

theorem elems_nil : elems [] = [] := by
  simp [elems, splitSlash]

theorem cleanChars_eq (p : List Char) :
    cleanChars p = render (p.head? = some '/') (stackOf p).reverse := by
  by_cases hp : p = []
  · subst hp
    simp [cleanChars, stackOf, elems_nil, render]
  · simp [cleanChars, hp, stackOf]

theorem foldl_cleanStep_snoc_real (rooted : Bool) (st : List (List Char)) (es : List (List Char))
    (x : List Char) (hx : realElem x) :
    (es ++ [x]).foldl (cleanStep rooted) st = x :: es.foldl (cleanStep rooted) st := by
  rw [List.foldl_append]
  simp [cleanStep_real rooted _ x hx]

/-- The join of a directory and a file name that is a real element: the cleaned
directory followed by the name. -/
theorem joinChars_pair (d x : List Char) (hx : realElem x) :
    joinChars [d, x] = render (d.head? = some '/') ((stackOf d).reverse ++ [x]) := by
  by_cases hd : d = []
  · subst hd
    have h1 : joinChars [[], x] = cleanChars x := by
      simp [joinChars, hx.1, joinSlash]
    have hhead : x.head? ≠ some '/' := by
      intro h
      cases x with
      | nil => simp at h
      | cons c cs =>
        simp at h
        exact hx.2.1 (by simp [h])
    rw [h1, cleanChars_eq]
    simp [stackOf, elems_nil, elems_of_not_mem x hx.2.1 hx.1, cleanStep_real _ _ x hx, hhead]
  · have h1 : joinChars [d, x] = cleanChars (d ++ '/' :: x) := by
      simp [joinChars, hd, joinSlash]
    have hhead : (d ++ '/' :: x).head? = d.head? := by
      cases d with
      | nil => exact absurd rfl hd
      | cons c cs => simp
    rw [h1, cleanChars_eq]
    simp only [stackOf, hhead, elems_append_slash, elems_of_not_mem x hx.2.1 hx.1]
    rw [foldl_cleanStep_snoc_real _ _ _ x hx]
    simp

theorem baseChars_render_snoc (rooted : Bool) (es : List (List Char)) (x : List Char)
    (hx : realElem x) : baseChars (render rooted (es ++ [x])) = x := by
  rw [render_snoc]
  by_cases hes : es = []
  · cases rooted
    · simp [hes, baseChars_of_not_mem x hx.2.1 hx.1]
    · have := baseChars_append_slash [] x hx.2.1 hx.1
      simpa [hes] using this
  · rw [if_neg hes]
    exact baseChars_append_slash _ x hx.2.1 hx.1

theorem baseChars_joinChars_pair (d x : List Char) (hx : realElem x) :
    baseChars (joinChars [d, x]) = x := by
  rw [joinChars_pair d x hx]
  exact baseChars_render_snoc _ _ x hx

/-- A key without a separator followed by `.json` is a real path element. -/
theorem realElem_json (key : List Char) (hkey : '/' ∉ key) :
    realElem (key ++ ['.', 'j', 's', 'o', 'n']) := by
  refine ⟨by simp, ?_, ?_, ?_⟩
  · simp [hkey]
  · intro h
    have := congrArg List.length h
    simp at this
  · intro h
    have := congrArg List.length h
    simp at this

theorem not_mem_of_mem_splitSlash (p e : List Char) (he : e ∈ splitSlash p) : '/' ∉ e := by
  induction p generalizing e with
  | nil =>
    simp [splitSlash] at he
    simp [he]
  | cons c cs ih =>
    by_cases hc : c = '/'
    · rw [splitSlash] at he
      simp only [hc, if_true, List.mem_cons] at he
      rcases he with he | he
      · simp [he]
      · exact ih e he
    · rw [splitSlash] at he
      simp only [hc, if_false] at he
      cases hs : splitSlash cs with
      | nil => exact absurd hs (splitSlash_ne_nil cs)
      | cons x xs =>
        rw [hs] at he
        simp only [List.mem_cons] at he
        rcases he with he | he
        · have hx : '/' ∉ x := ih x (by rw [hs]; simp)
          subst he
          intro hmem
          rcases List.mem_cons.1 hmem with h | h
          · exact hc h.symm
          · exact hx h
        · exact ih e (by rw [hs]; simp [he])

theorem of_mem_elems (p e : List Char) (he : e ∈ elems p) : e ≠ [] ∧ '/' ∉ e := by
  simp only [elems, List.mem_filter, decide_eq_true_eq] at he
  exact ⟨he.2, not_mem_of_mem_splitSlash p e he.1⟩

theorem goodStack_cleanStep (rooted : Bool) (st : List (List Char)) (e : List Char)
    (hst : goodStack rooted st) (hne : e ≠ []) (hslash : '/' ∉ e) :
    goodStack rooted (cleanStep rooted st e) := by
  unfold cleanStep
  by_cases h1 : e = ['.']
  · simp [h1, hst]
  · rw [if_neg h1]
    by_cases h2 : e = ['.', '.']
    · rw [if_pos h2]
      cases st with
      | nil =>
        cases rooted
        · simp [goodStack, h2]
        · simp [goodStack]
      | cons top below =>
        simp only
        by_cases h3 : top = ['.', '.']
        · rw [if_neg (by simp [h3])]
          cases rooted
          · have hall := (hst.2.1 h3).2
            simp only [Bool.not_false, if_true]
            refine ⟨⟨hne, hslash, h1⟩, ?_, hst⟩
            intro _
            refine ⟨rfl, ?_⟩
            intro b hb
            rcases List.mem_cons.1 hb with h | h
            · rw [h, h3]
            · exact hall b h
          · simpa using hst
        · rw [if_pos h3]
          exact hst.2.2
    · rw [if_neg h2]
      exact ⟨⟨hne, hslash, h1⟩, fun h => absurd h h2, hst⟩

theorem goodStack_foldl (rooted : Bool) (es : List (List Char)) (st : List (List Char))
    (hst : goodStack rooted st) (hes : ∀ e ∈ es, e ≠ [] ∧ '/' ∉ e) :
    goodStack rooted (es.foldl (cleanStep rooted) st) := by
  induction es generalizing st with
  | nil => exact hst
  | cons e rest ih =>
    simp only [List.foldl_cons]
    apply ih
    · exact goodStack_cleanStep rooted st e hst (hes e (by simp)).1 (hes e (by simp)).2
    · intro e1 he1
      exact hes e1 (by simp [he1])

theorem goodStack_stackOf (p : List Char) :
    goodStack (decide (p.head? = some '/')) (stackOf p) :=
  goodStack_foldl _ _ [] trivial (of_mem_elems p)

theorem goodStack_suffix (rooted : Bool) (a b : List (List Char))
    (h : goodStack rooted (a ++ b)) : goodStack rooted b := by
  induction a with
  | nil => exact h
  | cons e rest ih => exact ih h.2.2

theorem goodStack_elem (rooted : Bool) (st : List (List Char)) (h : goodStack rooted st) :
    ∀ e ∈ st, e ≠ [] ∧ '/' ∉ e := by
  induction st with
  | nil => intro e he; simp at he
  | cons top below ih =>
    intro e he
    rcases List.mem_cons.1 he with h1 | h1
    · rw [h1]; exact ⟨h.1.1, h.1.2.1⟩
    · exact ih h.2.2 e h1

theorem cleanStep_of_goodStack (rooted : Bool) (st : List (List Char)) (e : List Char)
    (h : goodStack rooted (e :: st)) : cleanStep rooted st e = e :: st := by
  obtain ⟨⟨_, _, h1⟩, hdots, _⟩ := h
  unfold cleanStep
  rw [if_neg h1]
  by_cases h2 : e = ['.', '.']
  · obtain ⟨hr, hall⟩ := hdots h2
    rw [if_pos h2]
    cases st with
    | nil => simp [hr]
    | cons top below =>
      have h3 : top = ['.', '.'] := hall top (by simp)
      simp [h3, hr]
  · rw [if_neg h2]

theorem foldl_cleanStep_of_goodStack (rooted : Bool) (es : List (List Char))
    (st : List (List Char)) (h : goodStack rooted (es.reverse ++ st)) :
    es.foldl (cleanStep rooted) st = es.reverse ++ st := by
  induction es generalizing st with
  | nil => rfl
  | cons e rest ih =>
    have h2 : goodStack rooted (rest.reverse ++ e :: st) := by
      simpa using h
    have h3 : goodStack rooted (e :: st) := goodStack_suffix rooted _ _ h2
    simp only [List.foldl_cons, cleanStep_of_goodStack rooted st e h3]
    rw [ih (e :: st) h2]
    simp

theorem elems_joinSlash (es : List (List Char)) (hes : ∀ e ∈ es, e ≠ [] ∧ '/' ∉ e) :
    elems (joinSlash es) = es := by
  induction es with
  | nil => simp [joinSlash, elems_nil]
  | cons e rest ih =>
    have he := hes e (by simp)
    cases rest with
    | nil => simp [joinSlash, elems_of_not_mem e he.2 he.1]
    | cons f rest2 =>
      have hrest : ∀ e1 ∈ f :: rest2, e1 ≠ [] ∧ '/' ∉ e1 := by
        intro e1 he1
        exact hes e1 (by simp [List.mem_cons.1 he1])
      simp only [joinSlash]
      rw [elems_append_slash, elems_of_not_mem e he.2 he.1, ih hrest]
      simp

theorem head?_joinSlash (e : List Char) (rest : List (List Char)) (he : e ≠ []) :
    (joinSlash (e :: rest)).head? = e.head? := by
  cases e with
  | nil => exact absurd rfl he
  | cons c cs => cases rest <;> simp [joinSlash]

theorem render_ne_nil (rooted : Bool) (es : List (List Char))
    (hes : ∀ e ∈ es, e ≠ [] ∧ '/' ∉ e) : render rooted es ≠ [] := by
  cases rooted
  · cases es with
    | nil => simp [render]
    | cons e rest =>
      have he := (hes e (by simp)).1
      intro h
      have h2 := head?_joinSlash e rest he
      simp only [render, Bool.false_eq_true, if_false, List.cons_ne_nil] at h
      rw [h] at h2
      cases e with
      | nil => exact he rfl
      | cons c cs => simp at h2
  · simp [render]

/-- Idempotence: `Clean` leaves its own output as it is. -/
theorem cleanChars_render (rooted : Bool) (st : List (List Char)) (h : goodStack rooted st) :
    cleanChars (render rooted st.reverse) = render rooted st.reverse := by
  have hel : ∀ e ∈ st.reverse, e ≠ [] ∧ '/' ∉ e := by
    intro e he
    exact goodStack_elem rooted st h e (by simpa using he)
  have hfold : st.reverse.foldl (cleanStep rooted) [] = st := by
    have := foldl_cleanStep_of_goodStack rooted st.reverse [] (by simpa using h)
    simpa using this
  rw [cleanChars_eq]
  cases rooted with
  | true =>
    have hhead : (render true st.reverse).head? = some '/' := by simp [render]
    have helems : elems (render true st.reverse) = st.reverse := by
      have : render true st.reverse = [] ++ '/' :: joinSlash st.reverse := by simp [render]
      rw [this, elems_append_slash, elems_nil, elems_joinSlash _ hel]
      simp
    simp only [stackOf, hhead, helems, decide_True, hfold]
  | false =>
    cases hrev : st.reverse with
    | nil =>
      have : st = [] := by simpa using hrev
      subst this
      decide
    | cons e rest =>
      have he := hel e (by rw [hrev]; simp)
      have hrender : render false (e :: rest) = joinSlash (e :: rest) := by simp [render]
      have hhead : ¬ (render false (e :: rest)).head? = some '/' := by
        rw [hrender, head?_joinSlash e rest he.1]
        intro hh
        cases e with
        | nil => exact he.1 rfl
        | cons c cs =>
          simp at hh
          exact he.2 (by simp [hh])
      have helems : elems (render false (e :: rest)) = e :: rest := by
        rw [hrender]
        exact elems_joinSlash _ (by rw [← hrev]; exact hel)
      rw [hrev] at hfold
      simp only [stackOf, hhead, helems, decide_False, hfold]
      rw [hrev]

theorem dirChars_append_slash (p x : List Char) (hx : '/' ∉ x) :
    dirChars (p ++ '/' :: x) = cleanChars (p ++ ['/']) := by
  have hrev : (p ++ '/' :: x).reverse = x.reverse ++ '/' :: p.reverse := by simp
  have hall : ∀ c ∈ x.reverse, (fun c => decide (c ≠ '/')) c = true := by
    intro c hc
    have hmem : c ∈ x := by simpa using hc
    have hc : c ≠ '/' := by
      intro h
      rw [h] at hmem
      exact hx hmem
    simpa using hc
  unfold dirChars
  rw [hrev, List.dropWhile_append_of_pos hall]
  simp [List.dropWhile]

theorem dirChars_of_not_mem (x : List Char) (hx : '/' ∉ x) : dirChars x = ['.'] := by
  have hall : ∀ c ∈ x.reverse, (fun c => decide (c ≠ '/')) c = true := by
    intro c hc
    have hmem : c ∈ x := by simpa using hc
    have hc : c ≠ '/' := by
      intro h
      rw [h] at hmem
      exact hx hmem
    simpa using hc
  have h : (x.reverse ++ []).dropWhile (fun c => decide (c ≠ '/')) =
      ([] : List Char).dropWhile (fun c => decide (c ≠ '/')) :=
    List.dropWhile_append_of_pos hall
  rw [List.append_nil] at h
  unfold dirChars
  rw [h]
  decide

theorem cleanChars_append_slash (p : List Char) (hp : p ≠ []) :
    cleanChars (p ++ ['/']) = cleanChars p := by
  have hhead : (p ++ ['/']).head? = p.head? := by
    cases p with
    | nil => exact absurd rfl hp
    | cons c cs => simp
  rw [cleanChars_eq, cleanChars_eq]
  simp only [stackOf, hhead, elems_append_slash, elems_nil, List.append_nil]

/-- The directory of the join of a directory and a file name is the cleaned directory. -/
theorem dirChars_joinChars_pair (d x : List Char) (hx : realElem x) :
    dirChars (joinChars [d, x]) = cleanChars d := by
  have hgood := goodStack_stackOf d
  have hel : ∀ e ∈ (stackOf d).reverse, e ≠ [] ∧ '/' ∉ e := by
    intro e he
    exact goodStack_elem _ _ hgood e (by simpa using he)
  rw [joinChars_pair d x hx, render_snoc, cleanChars_eq d]
  by_cases hes : (stackOf d).reverse = []
  · rw [if_pos hes, hes]
    cases hr : decide (d.head? = some '/')
    · simp only [Bool.false_eq_true, if_false]
      rw [dirChars_of_not_mem x hx.2.1]
      rfl
    · simp only [if_true]
      have := dirChars_append_slash [] x hx.2.1
      simp only [List.nil_append] at this
      rw [this]
      decide
  · rw [if_neg hes, dirChars_append_slash _ x hx.2.1,
      cleanChars_append_slash _ (render_ne_nil _ _ hel), cleanChars_render _ _ hgood]

end filepath

/-! ## Facts about the cache store -/

section Store

variable {β ρ : Type} (J : TaskCodec β)

theorem json_data : (".json" : String).data = ['.', 'j', 's', 'o', 'n'] := rfl

/-- The entry path of a standard config has the base name `key.json`, for a key without
a separator. -/
theorem Base_stdTargetToCachePathFunc (cacheDir : String) (key : tgtStr)
    (hkey : '/' ∉ key.data) :
    filepath.Base (stdTargetToCachePathFunc cacheDir key) = key ++ ".json" := by
  apply String.ext
  simp only [filepath.Base, stdTargetToCachePathFunc, filepath.Join, List.map, String.data_append,
    json_data]
  exact filepath.baseChars_joinChars_pair _ _ (filepath.realElem_json key.data hkey)

/-- The config `stdCachePathFunc` returns, whatever the file system it ran on. -/
theorem stdCachePathFunc_cfg (cacheDir : String) (f : Task → tgtStr) (fs : FS β) :
    (stdCachePathFunc cacheDir f fs).1.1 =
      { cacheDir := cacheDir, taskToTarget := f,
        targetToPath := stdTargetToCachePathFunc cacheDir } := rfl

theorem pathErrno_eq_none_iff (p : String) :
    pathErrno p = none ↔ Char.ofNat 0 ∉ p.data ∧ p ≠ "" ∧ p.utf8ByteSize < 4096 := by
  unfold pathErrno
  by_cases h0 : Char.ofNat 0 ∈ p.data
  · simp [h0]
  · by_cases hp : p = ""
    · simp [hp]
    · by_cases hl : 4096 ≤ p.utf8ByteSize
      · simp [h0, hp, hl]
      · simp only [h0, hp, hl, if_false, not_false_eq_true, ne_eq, true_and, true_iff]
        omega

theorem parentErrno_eq_none_iff (fs : FS β) (p : String) :
    fs.parentErrno p = none ↔
      p ≠ "" ∧ fs.dirExists (filepath.Dir p) = true ∧
        (filepath.Base p).utf8ByteSize ≤ 255 := by
  unfold FS.parentErrno
  by_cases hp : p = ""
  · simp [hp]
  · by_cases hd : fs.dirExists (filepath.Dir p) = true
    · by_cases hl : 255 < (filepath.Base p).utf8ByteSize
      · simp [hp, hd, hl]
      · simp only [hp, hd, hl, if_false, if_true, ne_eq, not_false_eq_true, true_and, true_iff]
        omega
    · have hd2 : fs.dirExists (filepath.Dir p) = false := by simpa using hd
      rw [if_neg hp, hd2]
      simp only [Bool.false_eq_true, if_false, false_and, and_false, iff_false]
      split
      · simp
      · split_ifs <;> simp

theorem OpenFileWrite_ok_iff (fs : FS β) (p : String) :
    lockedfile.OpenFileWrite fs p = .ok () ↔
      pathErrno p = none ∧ fs.dirExists p = false ∧
        fs.dirExists (filepath.Dir p) = true ∧ (filepath.Base p).utf8ByteSize ≤ 255 := by
  unfold lockedfile.OpenFileWrite
  cases hpe : pathErrno p with
  | some errno => simp
  | none =>
    have hp : p ≠ "" := ((pathErrno_eq_none_iff p).1 hpe).2.1
    by_cases hdir : fs.dirExists p = true
    · simp [hdir]
    · have hdir2 : fs.dirExists p = false := by simpa using hdir
      cases hpar : fs.parentErrno p with
      | some errno =>
        have : ¬ (fs.dirExists (filepath.Dir p) = true ∧
            (filepath.Base p).utf8ByteSize ≤ 255) := by
          intro h
          have := (parentErrno_eq_none_iff fs p).2 ⟨hp, h⟩
          rw [hpar] at this
          simp at this
        simp [hdir2, this]
      | none =>
        have := ((parentErrno_eq_none_iff fs p).1 hpar).2
        simp [hdir2, this]

/-- Whether a path can be opened for writing does not depend on the regular files. -/
theorem OpenFileWrite_put (fs : FS β) (p q : String) (c : β) :
    lockedfile.OpenFileWrite (fs.put p c) q = .ok () ↔
      lockedfile.OpenFileWrite fs q = .ok () := by
  rw [OpenFileWrite_ok_iff, OpenFileWrite_ok_iff]
  exact Iff.rfl

/-- A file that can be opened for writing and holds `c` is read as `c`. -/
theorem OpenFileRead_of_file (fs : FS β) (path : String) (c : β)
    (hopen : lockedfile.OpenFileWrite fs path = .ok ()) (hf : fs.files path = some c) :
    lockedfile.OpenFileRead fs path = .ok (.regular c) := by
  obtain ⟨hpe, hdir, hd, hl⟩ := (OpenFileWrite_ok_iff fs path).1 hopen
  have hp : path ≠ "" := ((pathErrno_eq_none_iff path).1 hpe).2.1
  have hpar : fs.parentErrno path = none := (parentErrno_eq_none_iff _ _).2 ⟨hp, hd, hl⟩
  unfold lockedfile.OpenFileRead
  rw [hpe]
  simp only [hdir, hpar, hf, Bool.false_eq_true, if_false]

/-- Nothing at a path that can be opened for writing: the read finds no such file. -/
theorem OpenFileRead_of_none (fs : FS β) (path : String)
    (hopen : lockedfile.OpenFileWrite fs path = .ok ()) (hf : fs.files path = none) :
    lockedfile.OpenFileRead fs path = .error (.pathError "open" path .ENOENT) := by
  obtain ⟨hpe, hdir, hd, hl⟩ := (OpenFileWrite_ok_iff fs path).1 hopen
  have hp : path ≠ "" := ((pathErrno_eq_none_iff path).1 hpe).2.1
  have hpar : fs.parentErrno path = none := (parentErrno_eq_none_iff _ _).2 ⟨hp, hd, hl⟩
  unfold lockedfile.OpenFileRead
  rw [hpe]
  simp only [hdir, hpar, hf, Bool.false_eq_true, if_false]

/-- A write that took place can be opened for reading afterwards. -/
theorem OpenFileRead_put (fs : FS β) (path : String) (c : β)
    (hopen : lockedfile.OpenFileWrite fs path = .ok ()) :
    lockedfile.OpenFileRead (fs.put path c) path = .ok (.regular c) :=
  OpenFileRead_of_file _ _ _ ((OpenFileWrite_put fs path path c).2 hopen) (by simp [FS.put])

/-- Reading what `writeTask` wrote gives the task back. -/
theorem readTask_writeTask (t : Task) (cfg : cacheConfig) (fs : FS β)
    (hbase : filepath.Base (cfg.taskPath t) ≠ ".json")
    (hok : (writeTask J t cfg fs).1 = none) :
    readTask J (cfg.taskPath t) (writeTask J t cfg fs).2 = (t, none) := by
  unfold writeTask at hok ⊢
  simp only [hbase, if_false] at hok ⊢
  cases hopen : lockedfile.OpenFileWrite fs (cfg.taskPath t) with
  | error err => simp [hopen] at hok
  | ok u =>
    cases henc : J.marshalErr t with
    | some err => simp [hopen, henc] at hok
    | none =>
      simp only []
      unfold readTask
      rw [OpenFileRead_put fs _ _ hopen]
      simp [TaskCodec.Decode, J.decode_encode t henc]

/-- The directory of the entry path of a standard config is the cleaned namespace
directory, for a key without a separator. -/
theorem Dir_stdTargetToCachePathFunc (cacheDir : String) (key : tgtStr)
    (hkey : '/' ∉ key.data) :
    filepath.Dir (stdTargetToCachePathFunc cacheDir key) = filepath.Clean cacheDir := by
  apply String.ext
  simp only [filepath.Dir, filepath.Clean, stdTargetToCachePathFunc, filepath.Join, List.map,
    String.data_append, json_data]
  exact filepath.dirChars_joinChars_pair _ _ (filepath.realElem_json key.data hkey)

theorem Base_empty : filepath.Base "" = "." := by decide

/-- The entry path of a standard config is not the empty path and its base name is not
`.json`, for a non-empty key without a separator. -/
theorem stdTargetToCachePathFunc_proper (cacheDir : String) (key : tgtStr)
    (hkey : '/' ∉ key.data) (hne : key ≠ "") :
    stdTargetToCachePathFunc cacheDir key ≠ "" ∧
    filepath.Base (stdTargetToCachePathFunc cacheDir key) ≠ ".json" := by
  have hbase := Base_stdTargetToCachePathFunc cacheDir key hkey
  have hlen : (key ++ ".json").length = key.length + 5 := by
    simp [String.length_append]
    rfl
  have hdata : key.data ≠ [] := fun h => hne (String.ext h)
  have hpos : 0 < key.length := List.length_pos.2 hdata
  constructor
  · intro h
    rw [h, Base_empty] at hbase
    have := congrArg String.length hbase
    rw [hlen] at this
    have h1 : (".": String).length = 1 := rfl
    omega
  · intro h
    rw [h] at hbase
    have := congrArg String.length hbase
    rw [hlen] at this
    have h1 : (".json": String).length = 5 := rfl
    omega

/-- Frame: `writeTask` leaves the directories and every file but the entry as they were. -/
theorem writeTask_frame (t : Task) (cfg : cacheConfig) (fs : FS β) :
    (writeTask J t cfg fs).2.dirs = fs.dirs ∧
    ∀ q, q ≠ cfg.taskPath t → (writeTask J t cfg fs).2.files q = fs.files q := by
  unfold writeTask
  by_cases hbase : filepath.Base (cfg.taskPath t) = ".json"
  · simp [hbase]
  · simp only [hbase, if_false]
    cases lockedfile.OpenFileWrite fs (cfg.taskPath t) with
    | error err => simp
    | ok u =>
      cases J.marshalErr t with
      | some err =>
        refine ⟨rfl, ?_⟩
        intro q hq
        simp [FS.put, hq]
      | none =>
        refine ⟨rfl, ?_⟩
        intro q hq
        simp [FS.put, hq]

theorem readTask_of_entryIs (w : World β ρ) (p : String) (c : Task) (h : entryIs J w p c) :
    readTask J p w.fs = (c, none) := by
  obtain ⟨hf, henc, hopen⟩ := h
  unfold readTask
  rw [OpenFileRead_of_file _ _ _ hopen hf]
  simp [TaskCodec.Decode, J.decode_encode c henc]

/-- The write stage on a path that can be opened writes the entry, for a task that
marshals. -/
theorem writeTaskPipeline_entryIs (cfg : cacheConfig) (t : Task) (w : World β ρ)
    (hbase : filepath.Base (cfg.taskPath t) ≠ ".json")
    (hopen : lockedfile.OpenFileWrite w.fs (cfg.taskPath t) = .ok ())
    (henc : J.marshalErr t = none) :
    (writeTaskPipeline J cfg t w).1 = none ∧
    entryIs J (writeTaskPipeline J cfg t w).2 (cfg.taskPath t) t := by
  have hw : writeTask J t cfg w.fs = (none, w.fs.put (cfg.taskPath t) (J.encode t)) := by
    unfold writeTask
    simp only [hbase, if_false, hopen, henc]
  unfold writeTaskPipeline
  rw [hw]
  refine ⟨rfl, ?_, henc, (OpenFileWrite_put _ _ _ _).2 hopen⟩
  simp [FS.put]

/-- The filtered write on an entry that holds `cur`: the entry holds the newer of `cur`
and the task afterwards (the task when they are equally new). -/
theorem filter_write_step (cfg : cacheConfig) (t cur : Task) (w : World β ρ)
    (hbase : filepath.Base (cfg.taskPath t) ≠ ".json")
    (h : entryIs J w (cfg.taskPath t) cur) (henc : J.marshalErr t = none) :
    (filterUpdatesOnly J cfg (writeTaskPipeline J cfg) t w).1 = none ∧
    entryIs J (filterUpdatesOnly J cfg (writeTaskPipeline J cfg) t w).2 (cfg.taskPath t)
      (if t.Updated.unixNano < cur.Updated.unixNano then cur else t) := by
  have hread := readTask_of_entryIs J w _ cur h
  unfold filterUpdatesOnly
  simp only [hread]
  by_cases hlt : t.Updated.unixNano < cur.Updated.unixNano
  · simp [GoTime.Before, hlt, h]
  · simp only [GoTime.Before, hlt, decide_False, Bool.false_eq_true, if_false]
    exact writeTaskPipeline_entryIs J cfg t w hbase h.2.2 henc

/-- The filtered write when nothing is at the entry path: the task is written. -/
theorem filter_write_absent (cfg : cacheConfig) (t : Task) (w : World β ρ)
    (hbase : filepath.Base (cfg.taskPath t) ≠ ".json")
    (hnone : w.fs.files (cfg.taskPath t) = none)
    (hopen : lockedfile.OpenFileWrite w.fs (cfg.taskPath t) = .ok ())
    (henc : J.marshalErr t = none) :
    (filterUpdatesOnly J cfg (writeTaskPipeline J cfg) t w).1 = none ∧
    entryIs J (filterUpdatesOnly J cfg (writeTaskPipeline J cfg) t w).2 (cfg.taskPath t) t := by
  have hread : readTask J (cfg.taskPath t) w.fs =
      ({}, some (.pathError "open" (cfg.taskPath t) .ENOENT)) := by
    unfold readTask
    rw [OpenFileRead_of_none _ _ hopen hnone]
  unfold filterUpdatesOnly
  simp only [hread, os.IsNotExist, if_true]
  exact writeTaskPipeline_entryIs J cfg t w hbase hopen henc

/-- Tasks of one entry path that all marshal, processed in order on an entry that holds
`cur`: no error, and the entry holds a task of `cur :: ts` that none of them is newer
than. -/
theorem drain_filter_write (cfg : cacheConfig) (p : String) (ts : List Task) (cur : Task)
    (w : World β ρ) (hpath : ∀ t ∈ ts, cfg.taskPath t = p) (hbase : filepath.Base p ≠ ".json")
    (henc : ∀ t ∈ ts, J.marshalErr t = none)
    (h : entryIs J w p cur) :
    (drainTasks (filterUpdatesOnly J cfg (writeTaskPipeline J cfg)) ts w).1 = none ∧
    ∃ best, best ∈ cur :: ts ∧
      entryIs J (drainTasks (filterUpdatesOnly J cfg (writeTaskPipeline J cfg)) ts w).2 p best ∧
      ∀ t ∈ cur :: ts, t.Updated.unixNano ≤ best.Updated.unixNano := by
  induction ts generalizing cur w with
  | nil =>
    refine ⟨rfl, cur, by simp, h, ?_⟩
    intro t ht
    simp at ht
    rw [ht]
  | cons t rest ih =>
    have hp := hpath t (by simp)
    have hstep := filter_write_step J cfg t cur w (by rw [hp]; exact hbase) (by rw [hp]; exact h)
      (henc t (by simp))
    rw [hp] at hstep
    obtain ⟨hnil, hentry⟩ := hstep
    have hrest : ∀ t1 ∈ rest, cfg.taskPath t1 = p := fun t1 h1 => hpath t1 (by simp [h1])
    have hencrest : ∀ t1 ∈ rest, J.marshalErr t1 = none := fun t1 h1 => henc t1 (by simp [h1])
    obtain ⟨hnil2, best, hmem, hbest, hmax⟩ := ih _ _ hrest hencrest hentry
    have hdrain : drainTasks (filterUpdatesOnly J cfg (writeTaskPipeline J cfg)) (t :: rest) w =
        drainTasks (filterUpdatesOnly J cfg (writeTaskPipeline J cfg)) rest
          (filterUpdatesOnly J cfg (writeTaskPipeline J cfg) t w).2 := by
      cases hr : filterUpdatesOnly J cfg (writeTaskPipeline J cfg) t w with
      | mk r w1 =>
        rw [hr] at hnil
        simp only at hnil
        subst hnil
        simp [drainTasks, hr]
    rw [hdrain]
    refine ⟨hnil2, best, ?_, hbest, ?_⟩
    · rcases List.mem_cons.1 hmem with h1 | h1
      · rw [h1]
        by_cases hlt : t.Updated.unixNano < cur.Updated.unixNano <;> simp [hlt]
      · simp [h1]
    · intro t1 ht1
      have hnewer := hmax _ (List.mem_cons_self _ _)
      have hcur : cur.Updated.unixNano ≤ best.Updated.unixNano := by
        by_cases hlt : t.Updated.unixNano < cur.Updated.unixNano
        · simpa [hlt] using hnewer
        · simp only [hlt, if_false] at hnewer
          omega
      have ht : t.Updated.unixNano ≤ best.Updated.unixNano := by
        by_cases hlt : t.Updated.unixNano < cur.Updated.unixNano
        · simp only [hlt, if_true] at hnewer
          omega
        · simpa [hlt] using hnewer
      rcases List.mem_cons.1 ht1 with h1 | h1
      · rw [h1]; exact hcur
      · rcases List.mem_cons.1 h1 with h2 | h2
        · rw [h2]; exact ht
        · exact hmax t1 (by simp [h2])

end Store

/-! ## Facts about the walker on a scripted stream -/

theorem drainTasks_recordingStage (ts : List Task) (s : WalkLog) :
    drainTasks recordingStage ts s = (none, { s with invoked := s.invoked ++ ts }) := by
  induction ts generalizing s with
  | nil => simp [drainTasks]
  | cons t rest ih =>
    have h : recordingStage t s = (none, { s with invoked := s.invoked ++ [t] }) := rfl
    rw [drainTasks, h]
    simp only
    rw [ih]
    simp

/-- The loop of `walkTasks` on a scripted stream that is `streamOK`: with a turn for each
page left and one more, every page is fetched with the cursor of the page before it, its
tasks are passed to the pipeline in order, and `nil` is returned. -/
theorem walkLoop_scripted (rest : List Page) (fuel : Nat) (prev : List Task) (after : String)
    (s : WalkLog) (hpages : s.pages = rest) (hok : streamOK prev after rest)
    (hfuel : rest.length < fuel) :
    walkLoop scriptedRemote "5000" recordingStage fuel prev after s =
      some (.returned none,
        { pages := [], fetches := s.fetches ++ laterQueries after rest,
          invoked := s.invoked ++ (rest.map Page.tasks).flatten }) := by
  induction rest generalizing fuel prev after s with
  | nil =>
    cases fuel with
    | zero => simp at hfuel
    | succ n =>
      have h : after = "" := hok
      cases s with
      | mk pages fetches invoked =>
        simp only at hpages
        subst hpages
        simp [walkLoop, h, laterQueries]
  | cons page rest ih =>
    cases fuel with
    | zero => simp at hfuel
    | succ n =>
      obtain ⟨hlen, hprev, hrest⟩ := hok
      have hne : after ≠ "" := by
        intro h
        rw [h] at hlen
        exact absurd hlen (by decide)
      cases prev with
      | nil => exact absurd rfl hprev
      | cons t0 ts0 =>
        cases s with
        | mk pages fetches invoked =>
          simp only at hpages
          subst hpages
          have hget : getTasks scriptedRemote
              (Values.Set (Values.Set [] "after" after) "limit" "5000")
              { pages := page :: rest, fetches := fetches, invoked := invoked } =
              ((page.tasks, page.cursor, none),
                { pages := rest, fetches := fetches ++ [afterQuery after],
                  invoked := invoked }) := by
            simp [getTasks, scriptedRemote, afterQuery, Values.Set, Values.Del]
          have hlt : ¬ after.utf8ByteSize < 16 := by omega
          rw [walkLoop]
          simp only [hne, if_false, hlt, hget, drainTasks_recordingStage]
          rw [ih n page.tasks page.cursor _ rfl hrest (by simpa using hfuel)]
          simp [laterQueries]

/-- Go `walkTasks` on a scripted stream whose first page has a task and whose rest is
`streamOK`: one fetch per page, the first with the first query and each later one with
the cursor of the page before it, the pipeline invoked once on each task in stream
order, and `nil` returned. -/
theorem walkTasks_scripted (page : Page) (rest : List Page) (fuel : Nat)
    (hfirst : page.tasks ≠ []) (hok : streamOK page.tasks page.cursor rest)
    (hfuel : rest.length < fuel) :
    walkTasks scriptedRemote none 5000 recordingStage fuel { pages := page :: rest } =
      some (.returned none,
        { pages := [], fetches := firstQuery :: laterQueries page.cursor rest,
          invoked := ((page :: rest).map Page.tasks).flatten }) := by
  have hget : getTasks scriptedRemote firstQuery { pages := page :: rest } =
      ((page.tasks, page.cursor, none),
        { pages := rest, fetches := [firstQuery], invoked := [] }) := by
    simp [getTasks, scriptedRemote]
  have hq : Values.Del (Values.Set (Values.Set ((none : Option Values).getD []) "lod" "full")
      "limit" (if (5000 : Int) > 0 then toString (5000 : Int) else "100")) "after"
      = firstQuery := by decide
  unfold walkTasks
  simp only [hq, hget]
  have hlim : (if (5000 : Int) > 0 then toString (5000 : Int) else "100") = "5000" := by decide
  rw [hlim]
  cases hts : page.tasks with
  | nil => exact absurd hts hfirst
  | cons t0 ts0 =>
    simp only [drainTasks_recordingStage]
    rw [← hts, walkLoop_scripted rest fuel page.tasks page.cursor _ rfl hok hfuel]
    simp


/-! ## The claims -/

section Claims

variable {β ρ : Type} (J : TaskCodec β)

/-- C1: when the cache holds a decodable entry at the task's path whose `Updated` is
strictly after the task's, `filterUpdatesOnly cfg next` returns `nil` and leaves the
whole state as it was, whatever `next` is: `next` is not invoked.  The entry may be a
task written before (`readTask_writeTask`), so writing an older task after a newer one
of the same key is a no-op. -/
theorem filterUpdatesOnly_skips_older (cfg : cacheConfig)
    (next : taskPipelineFunc (World β ρ)) (t loaded : Task) (w : World β ρ)
    (hread : readTask J (cfg.taskPath t) w.fs = (loaded, none))
    (hnewer : t.Updated.unixNano < loaded.Updated.unixNano) :
    filterUpdatesOnly J cfg next t w = (none, w) := by
  unfold filterUpdatesOnly
  simp only [hread]
  simp [GoTime.Before, hnewer]

/-- Witness of C1: the task updated at 10 is written, then the task of the same key
updated at 5 arrives; a `next` that would fail is not invoked. -/
theorem filterUpdatesOnly_skips_older_witness :
    readTask exampleCodec (examplePolicyCfg.taskPath (exampleTask "u1" 5))
        (writeTask exampleCodec (exampleTask "u2" 10) examplePolicyCfg cacheFS).2
      = (exampleTask "u2" 10, none) ∧
    filterUpdatesOnly exampleCodec examplePolicyCfg (fun _ w => (some (.other "invoked"), w))
        (exampleTask "u1" 5)
        (⟨(writeTask exampleCodec (exampleTask "u2" 10) examplePolicyCfg cacheFS).2, ()⟩ :
          World Bytes Unit)
      = (none, ⟨(writeTask exampleCodec (exampleTask "u2" 10) examplePolicyCfg cacheFS).2, ()⟩) :=
  ⟨by decide,
   filterUpdatesOnly_skips_older exampleCodec examplePolicyCfg _ (exampleTask "u1" 5)
     (exampleTask "u2" 10) _ (by decide) (by decide)⟩

/-- C4, as stated, fails: under the by-policy config a task without a policy id is
written with a `nil` error, and reading its path back gives no task. -/
theorem writeTask_readTask_empty_key :
    (writeTask exampleCodec { UUID := "u1", Updated := ⟨5⟩ } examplePolicyCfg cacheFS).1 = none ∧
    readTask exampleCodec (examplePolicyCfg.taskPath { UUID := "u1", Updated := ⟨5⟩ })
        (writeTask exampleCodec { UUID := "u1", Updated := ⟨5⟩ } examplePolicyCfg cacheFS).2
      = ({}, some (.pathError "open" "cache/byPolicy/.json" .ENOENT)) := by
  decide

/-- C4, amended: for every task and every key policy, if the base name of the entry
path is not `.json` (the write is not skipped) and `writeTask` returns `nil`, then
`readTask` at the entry path returns the task written, with a `nil` error. -/
theorem writeTask_readTask_roundtrip (t : Task) (cfg : cacheConfig) (fs : FS β)
    (hbase : filepath.Base (cfg.taskPath t) ≠ ".json")
    (hok : (writeTask J t cfg fs).1 = none) :
    readTask J (cfg.taskPath t) (writeTask J t cfg fs).2 = (t, none) :=
  readTask_writeTask J t cfg fs hbase hok

/-- Witness of C4, amended. -/
theorem writeTask_readTask_roundtrip_witness :
    filepath.Base (examplePolicyCfg.taskPath (exampleTask "u1" 5)) ≠ ".json" ∧
    (writeTask exampleCodec (exampleTask "u1" 5) examplePolicyCfg cacheFS).1 = none ∧
    readTask exampleCodec (examplePolicyCfg.taskPath (exampleTask "u1" 5))
        (writeTask exampleCodec (exampleTask "u1" 5) examplePolicyCfg cacheFS).2
      = (exampleTask "u1" 5, none) :=
  ⟨by decide, by decide,
   writeTask_readTask_roundtrip exampleCodec (exampleTask "u1" 5) examplePolicyCfg cacheFS
     (by decide) (by decide)⟩

/-- C5: for a config built by `stdCachePathFunc` whose key projection gives the empty
string for the task, `writeTask` returns `nil` and the file system is as it was. -/
theorem writeTask_empty_key_noop (cacheDir : String) (f : Task → tgtStr) (t : Task)
    (fs0 fs : FS β) (hkey : f t = "") :
    writeTask J t (stdCachePathFunc cacheDir f fs0).1.1 fs = (none, fs) := by
  have hbase : filepath.Base (stdTargetToCachePathFunc cacheDir "") = ".json" := by
    rw [Base_stdTargetToCachePathFunc cacheDir "" (by simp)]
    rfl
  simp [writeTask, stdCachePathFunc_cfg, cacheConfig.taskPath, hkey, hbase]

/-- Witness of C5: a task without a policy id under the by-policy config. -/
theorem writeTask_empty_key_noop_witness :
    (fun task : Task => task.Policy.ID) { UUID := "u1" } = "" ∧
    writeTask exampleCodec { UUID := "u1" }
        (stdCachePathFunc "cache/byPolicy" (fun task => task.Policy.ID) emptyFS).1.1 cacheFS
      = (none, cacheFS) :=
  ⟨rfl, writeTask_empty_key_noop exampleCodec "cache/byPolicy" (fun task => task.Policy.ID)
     { UUID := "u1" } emptyFS cacheFS rfl⟩

/-- C7: `multiTaskPipelineFunc children` runs the children in list order on the task,
each on the state the one before it left.  (1) If the children before `c` all return
`nil` and `c` returns the error `e`, the fan-out returns exactly `e` in the state `c`
left: what the earlier children did persists, and the children after `c` have no part in
the result.  (2) The fan-out returns `nil` iff every child returned `nil`.  (3) In that
case all children have run. -/
theorem multiTaskPipelineFunc_first_error {σ : Type} (t : Task) :
    (∀ (pre post : List (taskPipelineFunc σ)) (c : taskPipelineFunc σ) (s : σ) (e : Err),
      allNil pre t s → (c t (stateAfter pre t s)).1 = some e →
      multiTaskPipelineFunc (pre ++ c :: post) t s = (some e, (c t (stateAfter pre t s)).2)) ∧
    (∀ (children : List (taskPipelineFunc σ)) (s : σ),
      (multiTaskPipelineFunc children t s).1 = none ↔ allNil children t s) ∧
    (∀ (children : List (taskPipelineFunc σ)) (s : σ),
      allNil children t s →
      multiTaskPipelineFunc children t s = (none, stateAfter children t s)) := by
  refine ⟨?_, ?_, ?_⟩
  · intro pre post c s e
    induction pre generalizing s with
    | nil =>
      intro _ hc
      simp only [List.nil_append, multiTaskPipelineFunc, stateAfter, List.foldl_nil] at hc ⊢
      cases hr : c t s with
      | mk r s1 =>
        rw [hr] at hc
        simp only at hc
        subst hc
        rfl
    | cons p ps ih =>
      intro hall hc
      obtain ⟨hp, hrest⟩ := hall
      simp only [List.cons_append, multiTaskPipelineFunc]
      cases hr : p t s with
      | mk r s1 =>
        rw [hr] at hp hrest
        simp only at hp hrest
        subst hp
        simp only
        have hst : stateAfter (p :: ps) t s = stateAfter ps t s1 := by
          simp [stateAfter, hr]
        rw [hst] at hc ⊢
        exact ih s1 hrest hc
  · intro children s
    induction children generalizing s with
    | nil => simp [multiTaskPipelineFunc, allNil]
    | cons p ps ih =>
      simp only [multiTaskPipelineFunc, allNil]
      cases hr : p t s with
      | mk r s1 =>
        cases r with
        | none => simpa using ih s1
        | some err => simp
  · intro children s
    induction children generalizing s with
    | nil => intro _; rfl
    | cons p ps ih =>
      intro hall
      obtain ⟨hp, hrest⟩ := hall
      simp only [multiTaskPipelineFunc]
      cases hr : p t s with
      | mk r s1 =>
        rw [hr] at hp hrest
        simp only at hp hrest
        subst hp
        simp only
        have hst : stateAfter (p :: ps) t s = stateAfter ps t s1 := by
          simp [stateAfter, hr]
        rw [hst]
        exact ih s1 hrest

/-- Witness of C7: three sinks, the second writes into a directory that does not exist.
The error of the second sink is returned, the entry of the first sink is written, the
entry of the third is not. -/
theorem multiTaskPipelineFunc_first_error_witness :
    multiTaskPipelineFunc
        [writeTaskPipeline exampleCodec examplePolicyCfg,
         writeTaskPipeline exampleCodec badDestCfg,
         writeTaskPipeline exampleCodec exampleTenantCfg] (exampleTask "u1" 5) cacheWorld
      = (some (.pathError "open" "missing/badDest.json" .ENOENT),
         (writeTaskPipeline exampleCodec badDestCfg (exampleTask "u1" 5)
           (stateAfter [writeTaskPipeline exampleCodec examplePolicyCfg]
             (exampleTask "u1" 5) cacheWorld)).2) ∧
    readTask exampleCodec "cache/byPolicy/p1.json"
        (multiTaskPipelineFunc
          [writeTaskPipeline exampleCodec examplePolicyCfg,
           writeTaskPipeline exampleCodec badDestCfg,
           writeTaskPipeline exampleCodec exampleTenantCfg] (exampleTask "u1" 5) cacheWorld).2.fs
      = (exampleTask "u1" 5, none) ∧
    (multiTaskPipelineFunc
          [writeTaskPipeline exampleCodec examplePolicyCfg,
           writeTaskPipeline exampleCodec badDestCfg,
           writeTaskPipeline exampleCodec exampleTenantCfg] (exampleTask "u1" 5)
          cacheWorld).2.fs.files "cache/byTenant/acme.json" = none :=
  ⟨(multiTaskPipelineFunc_first_error (exampleTask "u1" 5)).1
      [writeTaskPipeline exampleCodec examplePolicyCfg]
      [writeTaskPipeline exampleCodec exampleTenantCfg]
      (writeTaskPipeline exampleCodec badDestCfg) cacheWorld
      (.pathError "open" "missing/badDest.json" .ENOENT) ⟨by decide, trivial⟩ (by decide),
   by decide, by decide⟩

/-- C2, the code at the failing input: `main` guards the write into the by-tenant namespace
with the entry of the by-policy namespace.  Task `a` (policy `p1`, tenant
`acme`, updated at 10) is processed, then task `b` (policy `p2`, tenant `acme`, updated
at 5): both return `nil`, and the by-tenant entry `acme`, which held `a`, holds the older
`b` afterwards. -/
theorem cachePipeline_byTenant_older_overwrites :
    (mainCaches "cache" emptyFS).1 = some (examplePolicyCfg, exampleTenantCfg) ∧
    (drainTasks examplePipeline [policyTask "a" "p1" 10] cacheWorld).1 = none ∧
    readTask exampleCodec (exampleTenantCfg.taskPath (policyTask "a" "p1" 10))
        (drainTasks examplePipeline [policyTask "a" "p1" 10] cacheWorld).2.fs
      = (policyTask "a" "p1" 10, none) ∧
    (drainTasks examplePipeline [policyTask "a" "p1" 10, policyTask "b" "p2" 5] cacheWorld).1
      = none ∧
    exampleTenantCfg.taskPath (policyTask "b" "p2" 5) =
      exampleTenantCfg.taskPath (policyTask "a" "p1" 10) ∧
    readTask exampleCodec (exampleTenantCfg.taskPath (policyTask "a" "p1" 10))
        (drainTasks examplePipeline [policyTask "a" "p1" 10, policyTask "b" "p2" 5]
          cacheWorld).2.fs
      = (policyTask "b" "p2" 5, none) ∧
    (policyTask "b" "p2" 5).Updated.Before (policyTask "a" "p1" 10).Updated = true := by
  refine ⟨rfl, ?_, ?_, ?_, ?_, ?_, ?_⟩ <;> decide

/-- C8, the code at the failing input: a stream of two pages of 3 and 2 tasks whose first
page carries the cursor `page2`.  After the first fetch and the three tasks of the first
page, the log line of the loop slices `after[:16]` of a cursor of 5 bytes: `walkTasks`
panics, the second page is never fetched.  With a cursor of 16 bytes the same stream
is walked to the end: 2 fetches, 5 invocations in order, `nil`. -/
theorem walkTasks_two_pages_short_cursor :
    walkTasks scriptedRemote none 5000 recordingStage 5
        { pages := [⟨[policyTask "a" "p1" 1, policyTask "b" "p1" 2, policyTask "c" "p1" 3], "page2"⟩,
                    ⟨[policyTask "d" "p1" 4, policyTask "e" "p1" 5], ""⟩] }
      = some (.panicked (.sliceBoundsOutOfRange 16 5),
          { pages := [⟨[policyTask "d" "p1" 4, policyTask "e" "p1" 5], ""⟩],
            fetches := [firstQuery],
            invoked := [policyTask "a" "p1" 1, policyTask "b" "p1" 2, policyTask "c" "p1" 3] }) ∧
    walkTasks scriptedRemote none 5000 recordingStage 5
        { pages := [⟨[policyTask "a" "p1" 1, policyTask "b" "p1" 2, policyTask "c" "p1" 3],
                      "0123456789abcdef"⟩,
                    ⟨[policyTask "d" "p1" 4, policyTask "e" "p1" 5], ""⟩] }
      = some (.returned none,
          { pages := [],
            fetches := [firstQuery, afterQuery "0123456789abcdef"],
            invoked := [policyTask "a" "p1" 1, policyTask "b" "p1" 2, policyTask "c" "p1" 3,
                        policyTask "d" "p1" 4, policyTask "e" "p1" 5] }) := by
  constructor <;> decide

/-- C9, the code at the failing input: the first fetch answers with status 200, no
tasks and the empty cursor.  The log line after the fetch evaluates `newTasks[0]`:
`walkTasks` panics with an index out of range, whatever the pipeline and the query. -/
theorem walkTasks_empty_first_page {σ : Type} (query : Option Values) (limit : Int)
    (next : taskPipelineFunc σ) (fuel : Nat) (s : σ) :
    walkTasks (fun _ s1 => ((200, { Tasks := [], After := "" }, none), s1)) query limit next
        fuel s
      = some (.panicked (.indexOutOfRange 0 0), s) := by
  simp [walkTasks, getTasks]

/-- C10, the code at the failing input: the first page carries one task and the cursor
`abc`.  The loop slices `after[:16]` before it fetches: `walkTasks` panics on the cursor
of 3 bytes, and the fetch with `after=abc` is never made (one fetch is recorded). -/
theorem walkTasks_short_cursor_panics (fuel : Nat) :
    walkTasks scriptedRemote none 5000 recordingStage (fuel + 1)
        { pages := [⟨[policyTask "a" "p1" 1], "abc"⟩, ⟨[policyTask "b" "p1" 2], ""⟩] }
      = some (.panicked (.sliceBoundsOutOfRange 16 3),
          { pages := [⟨[policyTask "b" "p1" 2], ""⟩],
            fetches := [firstQuery],
            invoked := [policyTask "a" "p1" 1] }) := by
  rfl

/-- C3, as stated, fails: under the by-tenant config of `main`, with the namespace
directory in place and no entry for the key, a task whose tenant name `Acme/West` holds
a separator is not cached: the write fails, and nothing is at the entry path. -/
theorem filterUpdatesOnly_key_with_separator :
    exampleTenantCfg.taskToTarget { Tenant := { Name := "Acme/West" }, Updated := ⟨5⟩ }
      = "Acme/West" ∧
    cacheWorld.fs.dirExists "cache/byTenant" = true ∧
    cacheWorld.fs.files
      (exampleTenantCfg.taskPath { Tenant := { Name := "Acme/West" }, Updated := ⟨5⟩ }) = none ∧
    (drainTasks (filterUpdatesOnly exampleCodec exampleTenantCfg
        (writeTaskPipeline exampleCodec exampleTenantCfg))
        [{ Tenant := { Name := "Acme/West" }, Updated := ⟨5⟩ }] cacheWorld).1
      = some (.pathError "open" "cache/byTenant/Acme/West.json" .ENOENT) ∧
    readTask exampleCodec
        (exampleTenantCfg.taskPath { Tenant := { Name := "Acme/West" }, Updated := ⟨5⟩ })
        (drainTasks (filterUpdatesOnly exampleCodec exampleTenantCfg
          (writeTaskPipeline exampleCodec exampleTenantCfg))
          [{ Tenant := { Name := "Acme/West" }, Updated := ⟨5⟩ }] cacheWorld).2.fs
      = ({}, some (.pathError "open" "cache/byTenant/Acme/West.json" .ENOENT)) := by
  decide

/-- C3, amended: for a standard config, a non-empty list of tasks that all map to the
same key and all marshal (the year of `Updated` within 0-9999), the key being non-empty
and without a path separator, the entry path holding no NUL byte and fewer than 4096
bytes, the file name `key.json` having at most 255 bytes, the namespace directory
existing and nothing being at the entry path: processing the tasks in order through
`filterUpdatesOnly cfg (writeTaskPipeline cfg)` returns no error and leaves the entry
holding a task of the list whose `Updated` is the maximum of the list. -/
theorem filterUpdatesOnly_keeps_newest (cacheDir : String) (f : Task → tgtStr) (fs0 : FS β)
    (key : tgtStr) (ts : List Task) (w : World β ρ)
    (hts : ts ≠ []) (hsame : ∀ t ∈ ts, f t = key) (hne : key ≠ "") (hsep : '/' ∉ key.data)
    (henc : ∀ t ∈ ts, J.marshalErr t = none)
    (hnul : Char.ofNat 0 ∉ (stdTargetToCachePathFunc cacheDir key).data)
    (hlen : (stdTargetToCachePathFunc cacheDir key).utf8ByteSize < 4096)
    (hname : (key ++ ".json").utf8ByteSize ≤ 255)
    (hdir : w.fs.dirExists (filepath.Clean cacheDir) = true)
    (hnone : w.fs.files (stdTargetToCachePathFunc cacheDir key) = none)
    (hnodir : w.fs.dirExists (stdTargetToCachePathFunc cacheDir key) = false) :
    (drainTasks (filterUpdatesOnly J (stdCachePathFunc cacheDir f fs0).1.1
        (writeTaskPipeline J (stdCachePathFunc cacheDir f fs0).1.1)) ts w).1 = none ∧
    ∃ best, best ∈ ts ∧
      readTask J (stdTargetToCachePathFunc cacheDir key)
        (drainTasks (filterUpdatesOnly J (stdCachePathFunc cacheDir f fs0).1.1
          (writeTaskPipeline J (stdCachePathFunc cacheDir f fs0).1.1)) ts w).2.fs
        = (best, none) ∧
      ∀ t ∈ ts, t.Updated.unixNano ≤ best.Updated.unixNano := by
  obtain ⟨hp, hbase⟩ := stdTargetToCachePathFunc_proper cacheDir key hsep hne
  have hdd : w.fs.dirExists (filepath.Dir (stdTargetToCachePathFunc cacheDir key)) = true := by
    rw [Dir_stdTargetToCachePathFunc cacheDir key hsep]
    exact hdir
  have hopen : lockedfile.OpenFileWrite w.fs (stdTargetToCachePathFunc cacheDir key) = .ok () := by
    refine (OpenFileWrite_ok_iff _ _).2 ⟨(pathErrno_eq_none_iff _).2 ⟨hnul, hp, hlen⟩, hnodir,
      hdd, ?_⟩
    rw [Base_stdTargetToCachePathFunc cacheDir key hsep]
    exact hname
  have hpath0 : ∀ t ∈ ts, (stdCachePathFunc cacheDir f fs0).1.1.taskPath t =
      stdTargetToCachePathFunc cacheDir key := by
    intro t ht
    show stdTargetToCachePathFunc cacheDir (f t) = _
    rw [hsame t ht]
  generalize (stdCachePathFunc cacheDir f fs0).1.1 = cfg at hpath0 ⊢
  have hpath : ∀ t ∈ ts, cfg.taskPath t = stdTargetToCachePathFunc cacheDir key := hpath0
  cases ts with
  | nil => exact absurd rfl hts
  | cons t rest =>
    have hpt := hpath t (by simp)
    have hfirst := filter_write_absent J cfg t w (by rw [hpt]; exact hbase)
      (by rw [hpt]; exact hnone) (by rw [hpt]; exact hopen) (henc t (by simp))
    rw [hpt] at hfirst
    obtain ⟨hnil, hentry⟩ := hfirst
    have hrest : ∀ t1 ∈ rest, cfg.taskPath t1 = stdTargetToCachePathFunc cacheDir key :=
      fun t1 h1 => hpath t1 (by simp [h1])
    have hencrest : ∀ t1 ∈ rest, J.marshalErr t1 = none := fun t1 h1 => henc t1 (by simp [h1])
    obtain ⟨hnil2, best, hmem, hbest, hmax⟩ :=
      drain_filter_write J cfg _ rest t _ hrest hbase hencrest hentry
    have hdrain : drainTasks (filterUpdatesOnly J cfg (writeTaskPipeline J cfg)) (t :: rest) w =
        drainTasks (filterUpdatesOnly J cfg (writeTaskPipeline J cfg)) rest
          (filterUpdatesOnly J cfg (writeTaskPipeline J cfg) t w).2 := by
      cases hr : filterUpdatesOnly J cfg (writeTaskPipeline J cfg) t w with
      | mk r w1 =>
        rw [hr] at hnil
        simp only at hnil
        subst hnil
        simp [drainTasks, hr]
    rw [hdrain]
    exact ⟨hnil2, best, hmem, readTask_of_entryIs J _ _ best hbest, hmax⟩

/-- Witness of C3, amended: the tasks updated at 10, 11 and 9 arrive in that order for
the policy `p1`; the entry holds the task updated at 11. -/
theorem filterUpdatesOnly_keeps_newest_witness :
    readTask exampleCodec "cache/byPolicy/p1.json"
        (drainTasks (filterUpdatesOnly exampleCodec examplePolicyCfg
          (writeTaskPipeline exampleCodec examplePolicyCfg))
          [exampleTask "u1" 10, exampleTask "u2" 11, exampleTask "u3" 9] cacheWorld).2.fs
      = (exampleTask "u2" 11, none) ∧
    ((drainTasks (filterUpdatesOnly exampleCodec
          (stdCachePathFunc "cache/byPolicy" (fun task => task.Policy.ID) emptyFS).1.1
        (writeTaskPipeline exampleCodec
          (stdCachePathFunc "cache/byPolicy" (fun task => task.Policy.ID) emptyFS).1.1))
        [exampleTask "u1" 10, exampleTask "u2" 11, exampleTask "u3" 9] cacheWorld).1 = none ∧
     ∃ best, best ∈ [exampleTask "u1" 10, exampleTask "u2" 11, exampleTask "u3" 9] ∧
      readTask exampleCodec (stdTargetToCachePathFunc "cache/byPolicy" "p1")
        (drainTasks (filterUpdatesOnly exampleCodec
            (stdCachePathFunc "cache/byPolicy" (fun task => task.Policy.ID) emptyFS).1.1
          (writeTaskPipeline exampleCodec
            (stdCachePathFunc "cache/byPolicy" (fun task => task.Policy.ID) emptyFS).1.1))
          [exampleTask "u1" 10, exampleTask "u2" 11, exampleTask "u3" 9] cacheWorld).2.fs
        = (best, none) ∧
      ∀ t ∈ [exampleTask "u1" 10, exampleTask "u2" 11, exampleTask "u3" 9],
        t.Updated.unixNano ≤ best.Updated.unixNano) :=
  ⟨by decide,
   filterUpdatesOnly_keeps_newest exampleCodec "cache/byPolicy" (fun task => task.Policy.ID)
     emptyFS "p1" [exampleTask "u1" 10, exampleTask "u2" 11, exampleTask "u3" 9] cacheWorld
     (by decide) (by decide) (by decide) (by decide) (by decide) (by decide) (by decide)
     (by decide) (by decide) (by decide) (by decide)⟩

/-- C6, as stated, fails: under the by-tenant config of `main`, a task whose tenant name
is `../byPolicy/p1` is written to `cache/byPolicy/p1.json`, which is an entry of the
by-policy namespace and lies outside the directory `cache/byTenant`. -/
theorem writeTask_key_escapes_namespace :
    exampleTenantCfg.cacheDir = "cache/byTenant" ∧
    exampleTenantCfg.taskPath { Tenant := { Name := "../byPolicy/p1" } }
      = "cache/byPolicy/p1.json" ∧
    examplePolicyCfg.taskPath (exampleTask "u1" 5) = "cache/byPolicy/p1.json" ∧
    cacheFS.files "cache/byPolicy/p1.json" = none ∧
    (writeTask exampleCodec { Tenant := { Name := "../byPolicy/p1" } } exampleTenantCfg cacheFS).1
      = none ∧
    (writeTask exampleCodec { Tenant := { Name := "../byPolicy/p1" } } exampleTenantCfg
        cacheFS).2.files "cache/byPolicy/p1.json"
      = some (.json { Tenant := { Name := "../byPolicy/p1" } }) := by
  decide

/-- C6, amended: for a config built by `stdCachePathFunc cacheDir f` and a task whose key
`f t` has no path separator, the entry path is the direct child of the cleaned
`cacheDir` named `f t ++ ".json"`, and `writeTask` leaves the directories and every file
but that one as they were; in particular the entries of every standard namespace with
another cleaned directory stay as they were. -/
theorem writeTask_changes_only_entry (cacheDir : String) (f : Task → tgtStr) (t : Task)
    (fs0 fs : FS β) (hsep : '/' ∉ (f t).data) :
    filepath.Dir ((stdCachePathFunc cacheDir f fs0).1.1.taskPath t) = filepath.Clean cacheDir ∧
    filepath.Base ((stdCachePathFunc cacheDir f fs0).1.1.taskPath t) = f t ++ ".json" ∧
    (writeTask J t (stdCachePathFunc cacheDir f fs0).1.1 fs).2.dirs = fs.dirs ∧
    (∀ q, q ≠ (stdCachePathFunc cacheDir f fs0).1.1.taskPath t →
      (writeTask J t (stdCachePathFunc cacheDir f fs0).1.1 fs).2.files q = fs.files q) ∧
    (∀ (otherDir : String) (key : tgtStr), '/' ∉ key.data →
      filepath.Clean otherDir ≠ filepath.Clean cacheDir →
      (writeTask J t (stdCachePathFunc cacheDir f fs0).1.1 fs).2.files
          (stdTargetToCachePathFunc otherDir key)
        = fs.files (stdTargetToCachePathFunc otherDir key)) := by
  have hpath : (stdCachePathFunc cacheDir f fs0).1.1.taskPath t =
      stdTargetToCachePathFunc cacheDir (f t) := rfl
  have hdir := Dir_stdTargetToCachePathFunc cacheDir (f t) hsep
  have hframe := writeTask_frame J t (stdCachePathFunc cacheDir f fs0).1.1 fs
  refine ⟨by rw [hpath]; exact hdir, by rw [hpath]; exact Base_stdTargetToCachePathFunc _ _ hsep,
    hframe.1, hframe.2, ?_⟩
  intro otherDir key hkey hother
  apply hframe.2
  intro heq
  apply hother
  rw [← Dir_stdTargetToCachePathFunc otherDir key hkey, heq, hpath, hdir]

/-- Witness of C6, amended: the task of policy `p1` under the by-policy config. -/
theorem writeTask_changes_only_entry_witness :
    filepath.Dir ((stdCachePathFunc "cache/byPolicy" (fun task => task.Policy.ID)
      emptyFS).1.1.taskPath (exampleTask "u1" 5)) = filepath.Clean "cache/byPolicy" ∧
    (writeTask exampleCodec (exampleTask "u1" 5)
      (stdCachePathFunc "cache/byPolicy" (fun task => task.Policy.ID) emptyFS).1.1
      cacheFS).2.files (stdTargetToCachePathFunc "cache/byTenant" "acme")
      = cacheFS.files (stdTargetToCachePathFunc "cache/byTenant" "acme") :=
  ⟨(writeTask_changes_only_entry exampleCodec "cache/byPolicy" (fun task => task.Policy.ID)
      (exampleTask "u1" 5) emptyFS cacheFS (by decide)).1,
   (writeTask_changes_only_entry exampleCodec "cache/byPolicy" (fun task => task.Policy.ID)
      (exampleTask "u1" 5) emptyFS cacheFS (by decide)).2.2.2.2 "cache/byTenant" "acme"
      (by decide) (by decide)⟩

/-- C13: when reading the task's path fails with an error that `os.IsNotExist` does not
classify as not-found (a corrupt entry, say), `filterUpdatesOnly cfg next` returns that
error and leaves the whole state as it was, whatever `next` is: `next` is not invoked
and the entry is not treated as absent. -/
theorem filterUpdatesOnly_read_error (cfg : cacheConfig)
    (next : taskPipelineFunc (World β ρ)) (t partialTask : Task) (err : Err) (w : World β ρ)
    (hread : readTask J (cfg.taskPath t) w.fs = (partialTask, some err))
    (hkind : os.IsNotExist err = false) :
    filterUpdatesOnly J cfg next t w = (some err, w) := by
  unfold filterUpdatesOnly
  simp only [hread]
  simp [hkind]

/-- Witness of C13: the entry of policy `p1` holds bytes that are not JSON; the write
stage behind the filter is not run, the corrupt entry stays. -/
theorem filterUpdatesOnly_read_error_witness :
    readTask exampleCodec (examplePolicyCfg.taskPath (exampleTask "u1" 5)) corruptFS
      = ({}, some (.decode "invalid character")) ∧
    filterUpdatesOnly exampleCodec examplePolicyCfg
        (writeTaskPipeline exampleCodec examplePolicyCfg) (exampleTask "u1" 5)
        (⟨corruptFS, ()⟩ : World Bytes Unit)
      = (some (.decode "invalid character"), ⟨corruptFS, ()⟩) :=
  ⟨by decide,
   filterUpdatesOnly_read_error exampleCodec examplePolicyCfg _ (exampleTask "u1" 5) {}
     (.decode "invalid character") ⟨corruptFS, ()⟩ (by decide) (by decide)⟩

/-- C14, as stated, fails: nothing is at the path `cache/byPolicy/p1.json/x.json`, but
`p1.json` is a regular file, so the open fails with `ENOTDIR`, an error that
`os.IsNotExist` does not classify as not-found. -/
theorem readTask_under_regular_file :
    entryFS.files "cache/byPolicy/p1.json/x.json" = none ∧
    entryFS.dirExists "cache/byPolicy/p1.json/x.json" = false ∧
    readTask exampleCodec "cache/byPolicy/p1.json/x.json" entryFS
      = ({}, some (.pathError "open" "cache/byPolicy/p1.json/x.json" .ENOTDIR)) ∧
    os.IsNotExist (.pathError "open" "cache/byPolicy/p1.json/x.json" .ENOTDIR) = false := by
  decide

/-- The lookup of a path whose directory is missing, with no name above it over 255
bytes and no regular file above it, ends with `ENOENT`. -/
theorem parentErrno_enoent (fs : FS β) (p : String)
    (hd : fs.dirExists (filepath.Dir p) = false)
    (hnames : ∀ a ∈ FS.ancestors p.length p, (filepath.Base a).utf8ByteSize ≤ 255)
    (hanc : ∀ a ∈ FS.ancestors p.length p, fs.files a = none) :
    fs.parentErrno p = some .ENOENT := by
  unfold FS.parentErrno
  by_cases hp : p = ""
  · simp [hp]
  · rw [if_neg hp, hd]
    simp only [Bool.false_eq_true, if_false]
    cases hfind : (FS.ancestors p.length p).reverse.find? (fun a => !fs.dirExists a) with
    | none => rfl
    | some a =>
      have hmem : a ∈ FS.ancestors p.length p := by
        have := List.mem_of_find?_eq_some hfind
        simpa using this
      have h1 := hnames a hmem
      have h2 := hanc a hmem
      simp only []
      rw [if_neg (by omega)]
      simp [h2]

/-- The error of the string of a path without a NUL byte and of fewer than 4096 bytes:
none, or `ENOENT` for the empty path. -/
theorem pathErrno_of_valid (p : String) (hnul : Char.ofNat 0 ∉ p.data)
    (hlen : p.utf8ByteSize < 4096) :
    pathErrno p = none ∨ pathErrno p = some .ENOENT := by
  by_cases hp : p = ""
  · right
    rw [hp]
    decide
  · left
    exact (pathErrno_eq_none_iff p).2 ⟨hnul, hp, hlen⟩

/-- The read of a path at which nothing exists returns an open error. -/
theorem readTask_error_of_absent (path : String) (fs : FS β) (hfile : fs.files path = none)
    (hdir : fs.dirExists path = false) :
    ∃ errno, readTask J path fs = ({}, some (.pathError "open" path errno)) := by
  unfold readTask lockedfile.OpenFileRead
  cases hpe : pathErrno path with
  | some errno => exact ⟨errno, rfl⟩
  | none =>
    simp only [hdir, Bool.false_eq_true, if_false]
    cases hpar : fs.parentErrno path with
    | some errno => exact ⟨errno, rfl⟩
    | none => exact ⟨.ENOENT, by simp [hfile]⟩

/-- The read of a path at which nothing exists and above which no regular file stands,
the path having no NUL byte, fewer than 4096 bytes and no name over 255 bytes, fails with
the open error `ENOENT`. -/
theorem readTask_enoent (path : String) (fs : FS β) (hfile : fs.files path = none)
    (hdir : fs.dirExists path = false)
    (hnul : Char.ofNat 0 ∉ path.data) (hlen : path.utf8ByteSize < 4096)
    (hnames : ∀ a ∈ path :: FS.ancestors path.length path,
      (filepath.Base a).utf8ByteSize ≤ 255)
    (hanc : ∀ a ∈ FS.ancestors path.length path, fs.files a = none) :
    readTask J path fs = ({}, some (.pathError "open" path .ENOENT)) := by
  unfold readTask lockedfile.OpenFileRead
  rcases pathErrno_of_valid path hnul hlen with hpe | hpe
  · rw [hpe]
    simp only [hdir, Bool.false_eq_true, if_false]
    by_cases hd : fs.dirExists (filepath.Dir path) = true
    · have hp : path ≠ "" := ((pathErrno_eq_none_iff path).1 hpe).2.1
      have hpar : fs.parentErrno path = none :=
        (parentErrno_eq_none_iff fs path).2 ⟨hp, hd, hnames path (by simp)⟩
      rw [hpar]
      simp [hfile]
    · have hd2 : fs.dirExists (filepath.Dir path) = false := by simpa using hd
      rw [parentErrno_enoent fs path hd2 (fun a ha => hnames a (by simp [ha])) hanc]
  · rw [hpe]

/-- C14, amended: for every path at which neither a file nor a directory exists,
`readTask` returns the zero task and a non-nil error, never a `nil` error; when moreover
the path is in its cleaned form, holds no NUL byte, has fewer than 4096 bytes and no
element of more than 255 bytes, and no regular file stands where a directory of the path
is needed, the error is the open error `ENOENT`, which `os.IsNotExist` classifies as
not-found. -/
theorem readTask_absent (path : String) (fs : FS β)
    (hfile : fs.files path = none) (hdir : fs.dirExists path = false) :
    (readTask J path fs).1 = {} ∧ (readTask J path fs).2 ≠ none ∧
    (filepath.Clean path = path → Char.ofNat 0 ∉ path.data → path.utf8ByteSize < 4096 →
      (∀ a ∈ path :: FS.ancestors path.length path, (filepath.Base a).utf8ByteSize ≤ 255) →
      (∀ a ∈ FS.ancestors path.length path, fs.files a = none) →
      readTask J path fs = ({}, some (.pathError "open" path .ENOENT)) ∧
      os.IsNotExist (.pathError "open" path .ENOENT) = true) := by
  obtain ⟨errno, hread⟩ := readTask_error_of_absent J path fs hfile hdir
  refine ⟨?_, ?_, ?_⟩
  · rw [hread]
  · rw [hread]; simp
  · intro _ hnul hlen hnames hanc
    exact ⟨readTask_enoent J path fs hfile hdir hnul hlen hnames hanc, rfl⟩

/-- Witness of C14, amended: no entry of policy `p9` in the cache of `main`; the path is
clean, short and under no regular file, and the read fails with `ENOENT`. -/
theorem readTask_absent_witness :
    (readTask exampleCodec "cache/byPolicy/p9.json" cacheFS).1 = {} ∧
    (readTask exampleCodec "cache/byPolicy/p9.json" cacheFS).2 ≠ none ∧
    readTask exampleCodec "cache/byPolicy/p9.json" cacheFS
      = ({}, some (.pathError "open" "cache/byPolicy/p9.json" .ENOENT)) ∧
    os.IsNotExist (.pathError "open" "cache/byPolicy/p9.json" .ENOENT) = true :=
  ⟨(readTask_absent exampleCodec "cache/byPolicy/p9.json" cacheFS (by decide) (by decide)).1,
   (readTask_absent exampleCodec "cache/byPolicy/p9.json" cacheFS (by decide) (by decide)).2.1,
   (readTask_absent exampleCodec "cache/byPolicy/p9.json" cacheFS (by decide) (by decide)).2.2
     (by decide) (by decide) (by decide) (by decide) (by decide)⟩

/-- C19: the key of the by-policy config is the policy id, the key of the by-uuid config
is the UUID, the key of the by-tenant config is the tenant name when that is not empty
and the tenant id when it is; none of them depends on the directory or on the file
system the config was made on; and the entry path of each config is
`filepath.Join(cacheDir, key + ".json")`. -/
theorem cacheBy_key_and_path (cacheDir : String) (fs : FS β) (t : Task) :
    (cacheByPolicy cacheDir fs).1.1.taskToTarget t = t.Policy.ID ∧
    (cacheByUuid cacheDir fs).1.1.taskToTarget t = t.UUID ∧
    (t.Tenant.Name ≠ "" → (cacheByTenantName cacheDir fs).1.1.taskToTarget t = t.Tenant.Name) ∧
    (t.Tenant.Name = "" → (cacheByTenantName cacheDir fs).1.1.taskToTarget t = t.Tenant.ID) ∧
    (cacheByPolicy cacheDir fs).1.1.taskPath t
      = filepath.Join [cacheDir, t.Policy.ID ++ ".json"] ∧
    (cacheByUuid cacheDir fs).1.1.taskPath t = filepath.Join [cacheDir, t.UUID ++ ".json"] ∧
    (cacheByTenantName cacheDir fs).1.1.taskPath t
      = filepath.Join [cacheDir, (cacheByTenantName cacheDir fs).1.1.taskToTarget t ++ ".json"] := by
  refine ⟨rfl, rfl, ?_, ?_, rfl, rfl, rfl⟩
  · intro h
    show (if t.Tenant.Name ≠ "" then t.Tenant.Name else t.Tenant.ID) = _
    rw [if_pos h]
  · intro h
    show (if t.Tenant.Name ≠ "" then t.Tenant.Name else t.Tenant.ID) = _
    rw [if_neg (by simp [h])]

/-- Witness of C19: a tenant with a name, and a tenant without. -/
theorem cacheBy_key_and_path_witness :
    (cacheByTenantName "cache/byTenant" emptyFS).1.1.taskToTarget
        { Tenant := { Name := "acme", ID := "t1" } } = "acme" ∧
    (cacheByTenantName "cache/byTenant" emptyFS).1.1.taskToTarget
        { Tenant := { Name := "", ID := "t1" } } = "t1" :=
  ⟨(cacheBy_key_and_path "cache/byTenant" emptyFS
      { Tenant := { Name := "acme", ID := "t1" } }).2.2.1 (by decide),
   (cacheBy_key_and_path "cache/byTenant" emptyFS
      { Tenant := { Name := "", ID := "t1" } }).2.2.2.1 rfl⟩

/-- C20, as stated, fails: the namespace directory `missing` does not exist and the key
`../p1` is not empty, yet `writeTask` returns `nil` and creates the file `p1.json` in
the working directory. -/
theorem writeTask_missing_namespace_escaping_key :
    cacheFS.dirExists "missing" = false ∧
    escapingCfg.taskToTarget (exampleTask "u1" 5) = "../p1" ∧
    escapingCfg.taskPath (exampleTask "u1" 5) = "p1.json" ∧
    cacheFS.files "p1.json" = none ∧
    (writeTask exampleCodec (exampleTask "u1" 5) escapingCfg cacheFS).1 = none ∧
    (writeTask exampleCodec (exampleTask "u1" 5) escapingCfg cacheFS).2.files "p1.json"
      = some (.json (exampleTask "u1" 5)) := by
  decide

/-- C20, amended: for a standard config whose namespace directory does not exist, no
regular file standing at or above it, and a task whose key is non-empty and has no path
separator, the entry path holding no NUL byte and fewer than 4096 bytes, no directory
name of the path having more than 255 bytes, nothing being at the entry path:
`writeTask` and the write behind `filterUpdatesOnly` return the open error
`no such file or directory` for the entry path and leave the file system as it was, so
neither the directory nor the entry is created. -/
theorem writeTask_missing_namespace (cacheDir : String) (f : Task → tgtStr) (fs0 : FS β)
    (t : Task) (w : World β ρ) (hne : f t ≠ "") (hsep : '/' ∉ (f t).data)
    (hnul : Char.ofNat 0 ∉ (stdTargetToCachePathFunc cacheDir (f t)).data)
    (hlen : (stdTargetToCachePathFunc cacheDir (f t)).utf8ByteSize < 4096)
    (hnames : ∀ a ∈ FS.ancestors (stdTargetToCachePathFunc cacheDir (f t)).length
      (stdTargetToCachePathFunc cacheDir (f t)), (filepath.Base a).utf8ByteSize ≤ 255)
    (hmissing : w.fs.dirExists (filepath.Clean cacheDir) = false)
    (hanc : ∀ a ∈ FS.ancestors (stdTargetToCachePathFunc cacheDir (f t)).length
      (stdTargetToCachePathFunc cacheDir (f t)), w.fs.files a = none)
    (hnodir : w.fs.dirExists (stdTargetToCachePathFunc cacheDir (f t)) = false) :
    writeTask J t (stdCachePathFunc cacheDir f fs0).1.1 w.fs
      = (some (.pathError "open" (stdTargetToCachePathFunc cacheDir (f t)) .ENOENT), w.fs) ∧
    filterUpdatesOnly J (stdCachePathFunc cacheDir f fs0).1.1
        (writeTaskPipeline J (stdCachePathFunc cacheDir f fs0).1.1) t w
      = (some (.pathError "open" (stdTargetToCachePathFunc cacheDir (f t)) .ENOENT), w) ∧
    (Err.pathError "open" (stdTargetToCachePathFunc cacheDir (f t)) .ENOENT).Error
      = "open" ++ " " ++ stdTargetToCachePathFunc cacheDir (f t) ++ ": " ++
          "no such file or directory" := by
  obtain ⟨hp, hbase⟩ := stdTargetToCachePathFunc_proper cacheDir (f t) hsep hne
  have hd : w.fs.dirExists (filepath.Dir (stdTargetToCachePathFunc cacheDir (f t))) = false := by
    rw [Dir_stdTargetToCachePathFunc cacheDir (f t) hsep]
    exact hmissing
  have hpe : pathErrno (stdTargetToCachePathFunc cacheDir (f t)) = none :=
    (pathErrno_eq_none_iff _).2 ⟨hnul, hp, hlen⟩
  have hpar := parentErrno_enoent w.fs _ hd hnames hanc
  have hpath : (stdCachePathFunc cacheDir f fs0).1.1.taskPath t =
      stdTargetToCachePathFunc cacheDir (f t) := rfl
  have hwrite : writeTask J t (stdCachePathFunc cacheDir f fs0).1.1 w.fs
      = (some (.pathError "open" (stdTargetToCachePathFunc cacheDir (f t)) .ENOENT), w.fs) := by
    unfold writeTask
    rw [hpath]
    simp only [hbase, if_false]
    unfold lockedfile.OpenFileWrite
    rw [hpe]
    simp only [hnodir, hpar, Bool.false_eq_true, if_false]
  have hread : readTask J (stdTargetToCachePathFunc cacheDir (f t)) w.fs
      = ({}, some (.pathError "open" (stdTargetToCachePathFunc cacheDir (f t)) .ENOENT)) := by
    unfold readTask lockedfile.OpenFileRead
    rw [hpe]
    simp only [hnodir, hpar, Bool.false_eq_true, if_false]
  refine ⟨hwrite, ?_, rfl⟩
  unfold filterUpdatesOnly
  rw [hpath]
  simp only [hread, os.IsNotExist, if_true]
  unfold writeTaskPipeline
  rw [hwrite]

/-- Witness of C20, amended: the `badDest` case of `TestWriteTask` and of
`TestFilterUpdatesOnly`, with the error text the tests expect. -/
theorem writeTask_missing_namespace_witness :
    writeTask exampleCodec (exampleTask "u1" 5)
        (stdCachePathFunc "testdata/missing" (fun _ => "badDest") emptyFS).1.1 cacheWorld.fs
      = (some (.pathError "open" (stdTargetToCachePathFunc "testdata/missing" "badDest")
          .ENOENT), cacheWorld.fs) ∧
    filterUpdatesOnly exampleCodec
        (stdCachePathFunc "testdata/missing" (fun _ => "badDest") emptyFS).1.1
        (writeTaskPipeline exampleCodec
          (stdCachePathFunc "testdata/missing" (fun _ => "badDest") emptyFS).1.1)
        (exampleTask "u1" 5) cacheWorld
      = (some (.pathError "open" (stdTargetToCachePathFunc "testdata/missing" "badDest")
          .ENOENT), cacheWorld) ∧
    (Err.pathError "open" (stdTargetToCachePathFunc "testdata/missing" "badDest")
        .ENOENT).Error
      = "open testdata/missing/badDest.json: no such file or directory" :=
  ⟨(writeTask_missing_namespace exampleCodec "testdata/missing" (fun _ => "badDest") emptyFS
      (exampleTask "u1" 5) cacheWorld (by decide) (by decide) (by decide) (by decide)
      (by decide) (by decide) (by decide) (by decide)).1,
   (writeTask_missing_namespace exampleCodec "testdata/missing" (fun _ => "badDest") emptyFS
      (exampleTask "u1" 5) cacheWorld (by decide) (by decide) (by decide) (by decide)
      (by decide) (by decide) (by decide) (by decide)).2.1,
   by decide⟩

/-- The walk function of `pruneCache` keeps every file that is stale: when the
modification time plus the age is not after now, it returns `nil` and removes nothing. -/
theorem pruneCache_keeps_stale (age : Int) (now : GoTime) (path : String) (info : FileInfo)
    (fs : FS β) (hstale : info.ModTime.unixNano + age ≤ now.unixNano) :
    pruneCache age now path info fs = some (none, fs) := by
  have h : (info.ModTime.Add age).After now = false := by
    simp only [GoTime.After, GoTime.Add, decide_eq_false_iff_not]
    omega
  simp [pruneCache, h]

/-- C12, the code at the failing input: the retention age is 10 and the time is 100.  The
entry last modified at 0 is stale (0 + 10 is not after 100): the walk function returns
`nil` and the entry is still there.  The same entry last modified at 95 is recent
(95 + 10 is after 100): the walk function removes it. -/
theorem pruneCache_removes_recent_keeps_stale :
    (⟨0⟩ : GoTime).Add 10 = ⟨10⟩ ∧ (⟨10⟩ : GoTime).After ⟨100⟩ = false ∧
    (pruneCache 10 ⟨100⟩ "cache/byPolicy/p1.json" ⟨⟨0⟩⟩ entryFS).map
        (fun r => (r.1, r.2.files "cache/byPolicy/p1.json"))
      = some (none, some (.json (exampleTask "u1" 5))) ∧
    (⟨105⟩ : GoTime).After ⟨100⟩ = true ∧
    (pruneCache 10 ⟨100⟩ "cache/byPolicy/p1.json" ⟨⟨95⟩⟩ entryFS).map
        (fun r => (r.1, r.2.files "cache/byPolicy/p1.json"))
      = some (none, none) := by
  decide

/-- C15, the code at the failing input: the file holds the JSON object
`{"uuid":"abc","id":"oops"}`.  The decoder reports the mismatch for `id` and leaves the
`uuid` it decoded in the task; `readTask` returns that task with the error, not the zero
task. -/
theorem readTask_mistyped_returns_filled :
    readTask jsonCodec "testdata/mock/byTask/abc.json" mistypedFS
      = ({ UUID := "abc" },
         some (.decode
           "json: cannot unmarshal string into Go struct field Task.id of type int64")) ∧
    (readTask jsonCodec "testdata/mock/byTask/abc.json" mistypedFS).2 ≠ none ∧
    (readTask jsonCodec "testdata/mock/byTask/abc.json" mistypedFS).1 ≠ {} := by
  decide

/-- C16, as stated, fails: in the cache where the entry `p1` is corrupt and there is no
entry `p9`, the read of `p9` fails with not-found and the read of `p1` with a decoding
error, and the handler answers the two probes with the same metrics. -/
theorem probeHandler_same_for_absent_and_corrupt :
    readTask exampleCodec (examplePolicyCfg.targetToPath "p9") corruptFS
      = ({}, some (.pathError "open" "cache/byPolicy/p9.json" .ENOENT)) ∧
    readTask exampleCodec (examplePolicyCfg.targetToPath "p1") corruptFS
      = ({}, some (.decode "invalid character")) ∧
    probeHandler exampleCodec examplePolicyCfg.targetToPath "p9" 3 corruptFS
      = probeHandler exampleCodec examplePolicyCfg.targetToPath "p1" 3 corruptFS ∧
    probeHandler exampleCodec examplePolicyCfg.targetToPath "p1" 3 corruptFS
      = .metrics [{ name := "probe_success", value := 0 },
                  { name := "probe_duration_seconds", value := 3 },
                  { name := "acronis_policy_state", value := 3 }] := by
  decide

/-- C16, amended: for every probe whose read fails, with not-found or with any other
error, the handler renders the same metrics: `probe_success` 0, the duration, and
`acronis_policy_state` 3; the gauges of a cached task are absent. -/
theorem probeHandler_read_error (path : tgtStr → String) (target : String) (elapsedMs : Int)
    (fs : FS β) (task : Task) (err : Err)
    (hread : readTask J (path target) fs = (task, some err)) :
    probeHandler J path target elapsedMs fs
      = .metrics [{ name := "probe_success", value := 0 },
                  { name := "probe_duration_seconds", value := elapsedMs },
                  { name := "acronis_policy_state", value := 3 }] := by
  have h1 : Registry.Register [] { name := "probe_success" }
      = some [{ name := "probe_success" }] := by decide
  have h2 : Registry.Register [{ name := "probe_success" }]
      { name := "probe_duration_seconds" }
      = some [{ name := "probe_success" }, { name := "probe_duration_seconds" }] := by decide
  have h3 : Registry.Set [{ name := "probe_success" }, { name := "probe_duration_seconds" }]
      "probe_success" 0
      = [{ name := "probe_success" }, { name := "probe_duration_seconds" }] := by decide
  have h4 : registerPolicyState { task with Result := { task.Result with Code := "nomatch" } }
      = { name := "acronis_policy_state", value := 3 } := by
    simp [registerPolicyState]
  have h5 : Registry.Register [{ name := "probe_success" }, { name := "probe_duration_seconds" }]
      { name := "acronis_policy_state", value := 3 }
      = some [{ name := "probe_success" }, { name := "probe_duration_seconds" },
              { name := "acronis_policy_state", value := 3 }] := by decide
  unfold probeHandler
  simp only [h1, h2, hread, h3]
  unfold probeFinish
  rw [h4]
  simp only [h5]
  simp [Registry.Set]

/-- Witness of C16, amended: the probe of the corrupt entry `p1`. -/
theorem probeHandler_read_error_witness :
    probeHandler exampleCodec examplePolicyCfg.targetToPath "p1" 3 corruptFS
      = .metrics [{ name := "probe_success", value := 0 },
                  { name := "probe_duration_seconds", value := 3 },
                  { name := "acronis_policy_state", value := 3 }] :=
  probeHandler_read_error exampleCodec examplePolicyCfg.targetToPath "p1" 3 corruptFS {}
    (.decode "invalid character") (by decide)

/-- C17, as stated, fails: the token request is granted and the client request that
follows fails; `Auth` returns the error of the client request, and the token `old` has
been replaced by the token `fresh`. -/
theorem Auth_error_after_token_replaced :
    (AcronisAPI.Auth clientFailsRemote { token := "old" } "testuser" "hunter2" ()).1.1
      = some (.other "error: service unavailable") ∧
    (AcronisAPI.Auth clientFailsRemote { token := "old" } "testuser" "hunter2" ()).1.2.token
      = "fresh" := by
  decide

/-- C17, amended: when the token request fails or is answered with a status outside
200-299, `Auth` returns an error and leaves the `AcronisAPI` value, its token included,
as it was; when the token request is granted, the token is the one received, also when
`Auth` returns the error of the client request that follows. -/
theorem Auth_token {σ : Type} (remote : AuthRemote σ) (a : AcronisAPI)
    (clientID clientSecret : String) (s s1 : σ) (status : Int) (resp : AuthResponse) :
    (∀ err, remote.tokenCall clientID clientSecret s = ((status, resp, some err), s1) →
      (AcronisAPI.Auth remote a clientID clientSecret s).1.1 ≠ none ∧
      (AcronisAPI.Auth remote a clientID clientSecret s).1.2 = a) ∧
    (remote.tokenCall clientID clientSecret s = ((status, resp, none), s1) →
      (status < 200 ∨ status ≥ 300) →
      (AcronisAPI.Auth remote a clientID clientSecret s).1.1 ≠ none ∧
      (AcronisAPI.Auth remote a clientID clientSecret s).1.2 = a) ∧
    (remote.tokenCall clientID clientSecret s = ((status, resp, none), s1) →
      200 ≤ status → status < 300 →
      (AcronisAPI.Auth remote a clientID clientSecret s).1.2.token = resp.Token) := by
  refine ⟨?_, ?_, ?_⟩
  · intro err h
    simp [AcronisAPI.Auth, h]
  · intro h hstatus
    simp [AcronisAPI.Auth, h, hstatus]
  · intro h hlo hhi
    have hnot : ¬ (status < 200 ∨ status ≥ 300) := by omega
    simp only [AcronisAPI.Auth, h, hnot, if_false]
    unfold AcronisAPI.clientTenant
    split
    · rfl
    · split <;> rfl

/-- Witness of C17, amended: the calls of `TestAcronisAPI_Auth`.  The bad user is
rejected with the error text the test expects and the token stays empty; the test user
is granted the token; the bad user is rejected again and the token stays. -/
theorem Auth_token_witness :
    ((AcronisAPI.Auth mockAuthRemote {} "baduser" "hunter2" ()).1.1.map Err.Error
      = some ("auth rejected: status [400] [invalid_request] message: " ++
          "Authorization header value is not recognized")) ∧
    ((AcronisAPI.Auth mockAuthRemote {} "baduser" "hunter2" ()).1.1 ≠ none ∧
      (AcronisAPI.Auth mockAuthRemote {} "baduser" "hunter2" ()).1.2 = {}) ∧
    (AcronisAPI.Auth mockAuthRemote {} "testuser" "hunter2" ()).1.1 = none ∧
    (AcronisAPI.Auth mockAuthRemote {} "testuser" "hunter2" ()).1.2.token
      = "testAcronisValidToken" ∧
    ((AcronisAPI.Auth mockAuthRemote { token := "testAcronisValidToken" } "baduser" "hunter2"
        ()).1.1 ≠ none ∧
      (AcronisAPI.Auth mockAuthRemote { token := "testAcronisValidToken" } "baduser" "hunter2"
        ()).1.2 = { token := "testAcronisValidToken" }) :=
  ⟨by decide,
   (Auth_token mockAuthRemote {} "baduser" "hunter2" () () 400
      { Error := "invalid_request",
        ErrorDescription := "Authorization header value is not recognized" }).2.1
      (by decide) (by decide),
   by decide,
   (Auth_token mockAuthRemote {} "testuser" "hunter2" () () 200
      { Token := "testAcronisValidToken", ID := "testAcronisValidTokenInstanceID",
        TokenType := "bearer", Expires := 60 }).2.2 (by decide) (by decide) (by decide),
   (Auth_token mockAuthRemote { token := "testAcronisValidToken" } "baduser" "hunter2" () () 400
      { Error := "invalid_request",
        ErrorDescription := "Authorization header value is not recognized" }).2.1
      (by decide) (by decide)⟩

theorem drainTasks_append_fail {σ : Type} (next : taskPipelineFunc σ) (pre post : List Task)
    (t : Task) (s sf : σ) (e : Err) (hpre : (drainTasks next pre s).1 = none)
    (ht : next t (drainTasks next pre s).2 = (some e, sf)) :
    drainTasks next (pre ++ t :: post) s = (some e, sf) := by
  induction pre generalizing s with
  | nil =>
    simp only [drainTasks] at ht
    simp [drainTasks, ht]
  | cons p rest ih =>
    cases hr : next p s with
    | mk r s1 =>
      cases r with
      | some err => simp [drainTasks, hr] at hpre
      | none =>
        simp only [drainTasks, hr] at hpre ht
        simp only [List.cons_append, drainTasks, hr]
        exact ih s1 hpre ht

/-- A page that fails ends the fetch-and-drain step with its error in its state. -/
theorem pageFails_step {σ : Type} (call : RemoteCall σ) (next : taskPipelineFunc σ)
    (query : Values) (s sf : σ) (e : Err) (h : pageFails call next query s e sf) :
    (∃ tasks after, getTasks call query s = ((tasks, after, some e), sf)) ∨
    (∃ tasks after s1, getTasks call query s = ((tasks, after, none), s1) ∧ tasks ≠ [] ∧
      drainTasks next tasks s1 = (some e, sf)) := by
  rcases h with h | ⟨pre, t, post, after, s1, hget, hpre, ht⟩
  · exact Or.inl h
  · exact Or.inr ⟨pre ++ t :: post, after, s1, hget, by simp,
      drainTasks_append_fail next pre post t s1 sf e hpre ht⟩

theorem walkTasks_first_page_fails {σ : Type} (call : RemoteCall σ) (query : Option Values)
    (limit : Int) (next : taskPipelineFunc σ) (fuel : Nat) (s sf : σ) (e : Err)
    (h : pageFails call next (firstFetchQuery query limit) s e sf) :
    walkTasks call query limit next fuel s = some (.returned (some e), sf) := by
  unfold walkTasks
  rcases pageFails_step call next _ s sf e h with ⟨tasks, after, hget⟩ | ⟨tasks, after, s1, hget, hne, hdrain⟩
  · simp only [firstFetchQuery, limitStrOf] at hget
    simp only [hget]
  · simp only [firstFetchQuery, limitStrOf] at hget
    simp only [hget]
    cases tasks with
    | nil => exact absurd rfl hne
    | cons t0 rest => simp only [hdrain]

theorem walkLoop_page_fails {σ : Type} (call : RemoteCall σ) (limitStr : String)
    (next : taskPipelineFunc σ) (fuel : Nat) (st : LoopState σ) (sf : σ) (e : Err)
    (hafter : st.after ≠ "") (hlen : 16 ≤ st.after.utf8ByteSize) (htasks : st.newTasks ≠ [])
    (h : pageFails call next (laterFetchQuery st.after limitStr) st.s e sf) :
    walkLoop call limitStr next (fuel + 1) st.newTasks st.after st.s
      = some (.returned (some e), sf) := by
  obtain ⟨newTasks, after, s0⟩ := st
  simp only at hafter hlen htasks h ⊢
  have hlt : ¬ after.utf8ByteSize < 16 := by omega
  cases newTasks with
  | nil => exact absurd rfl htasks
  | cons t0 rest =>
    rw [walkLoop]
    simp only [hafter, if_false, hlt]
    rcases pageFails_step call next _ s0 sf e h with
      ⟨tasks, after1, hget⟩ | ⟨tasks, after1, s1, hget, _, hdrain⟩
    · simp only [laterFetchQuery] at hget
      simp only [hget]
    · simp only [laterFetchQuery] at hget
      simp only [hget, hdrain]

theorem walkLoop_goodTurn {σ : Type} (call : RemoteCall σ) (limitStr : String)
    (next : taskPipelineFunc σ) (fuel : Nat) (st st1 : LoopState σ)
    (h : goodTurn call limitStr next st = some st1) :
    walkLoop call limitStr next (fuel + 1) st.newTasks st.after st.s
      = walkLoop call limitStr next fuel st1.newTasks st1.after st1.s := by
  obtain ⟨newTasks, after, s0⟩ := st
  unfold goodTurn at h
  simp only at h ⊢
  by_cases hc : after = "" ∨ after.utf8ByteSize < 16 ∨ newTasks = []
  · simp [hc] at h
  · rw [if_neg hc] at h
    have hafter : after ≠ "" := fun hh => hc (Or.inl hh)
    have hlt : ¬ after.utf8ByteSize < 16 := fun hh => hc (Or.inr (Or.inl hh))
    have htasks : newTasks ≠ [] := fun hh => hc (Or.inr (Or.inr hh))
    cases newTasks with
    | nil => exact absurd rfl htasks
    | cons t0 rest =>
      rw [walkLoop]
      simp only [hafter, if_false, hlt]
      simp only [laterFetchQuery] at h
      cases hget : getTasks call (Values.Set (Values.Set [] "after" after) "limit" limitStr)
          s0 with
      | mk r s1 =>
        obtain ⟨tasks, after1, err⟩ := r
        rw [hget] at h
        cases err with
        | some e0 => simp at h
        | none =>
          simp only at h ⊢
          cases hdrain : drainTasks next tasks s1 with
          | mk r2 s2 =>
            rw [hdrain] at h
            cases r2 with
            | some e0 => simp at h
            | none =>
              simp only [Option.some.injEq] at h
              subst h
              rfl

theorem walkLoop_goodTurns {σ : Type} (call : RemoteCall σ) (limitStr : String)
    (next : taskPipelineFunc σ) (k fuel : Nat) (st st1 : LoopState σ)
    (h : goodTurns call limitStr next k st = some st1) :
    walkLoop call limitStr next (fuel + k) st.newTasks st.after st.s
      = walkLoop call limitStr next fuel st1.newTasks st1.after st1.s := by
  induction k generalizing st with
  | zero =>
    simp only [goodTurns, Option.some.injEq] at h
    subst h
    rfl
  | succ n ih =>
    simp only [goodTurns] at h
    cases hturn : goodTurn call limitStr next st with
    | none => simp [hturn] at h
    | some st2 =>
      rw [hturn] at h
      simp only [Option.some_bind] at h
      have : fuel + (n + 1) = (fuel + n) + 1 := by omega
      rw [this, walkLoop_goodTurn call limitStr next (fuel + n) st st2 hturn]
      exact ih st2 h

theorem walkTasks_firstPage {σ : Type} (call : RemoteCall σ) (query : Option Values)
    (limit : Int) (next : taskPipelineFunc σ) (fuel : Nat) (s : σ) (st0 : LoopState σ)
    (h : firstPage call query limit next s = some st0) :
    walkTasks call query limit next fuel s
      = walkLoop call (limitStrOf limit) next fuel st0.newTasks st0.after st0.s := by
  unfold firstPage at h
  simp only [firstFetchQuery, limitStrOf] at h
  cases hget : getTasks call (Values.Del (Values.Set (Values.Set (query.getD []) "lod" "full")
      "limit" (if limit > 0 then toString limit else "100")) "after") s with
  | mk r s1 =>
    obtain ⟨tasks, after, err⟩ := r
    rw [hget] at h
    cases err with
    | some e0 => simp at h
    | none =>
      simp only at h
      cases tasks with
      | nil => simp at h
      | cons t0 rest =>
        simp only [List.cons_ne_nil, if_false] at h
        cases hdrain : drainTasks next (t0 :: rest) s1 with
        | mk r2 s2 =>
          rw [hdrain] at h
          cases r2 with
          | some e0 => simp at h
          | none =>
            simp only [Option.some.injEq] at h
            subst h
            simp only [walkTasks, hget, hdrain, limitStrOf]

/-- C11: whenever a page fails, its fetch returning an error or the pipeline returning
an error for one of its tasks after `nil` for the tasks before it, `walkTasks` returns
exactly that error in the state the failing fetch or the failing pipeline call left: no
fetch and no pipeline call follows, and the tasks after the failing one are not passed
to the pipeline.  (1) is the first page; (2) is a page of the loop, reached after the
first page and `k` turns that went on, at a turn where the loop issues its fetch. -/
theorem walkTasks_returns_first_failure {σ : Type} (call : RemoteCall σ)
    (query : Option Values) (limit : Int) (next : taskPipelineFunc σ) (s sf : σ) (e : Err) :
    (pageFails call next (firstFetchQuery query limit) s e sf →
      ∀ fuel, walkTasks call query limit next fuel s = some (.returned (some e), sf)) ∧
    (∀ (st0 st : LoopState σ) (k : Nat),
      firstPage call query limit next s = some st0 →
      goodTurns call (limitStrOf limit) next k st0 = some st →
      st.after ≠ "" → 16 ≤ st.after.utf8ByteSize → st.newTasks ≠ [] →
      pageFails call next (laterFetchQuery st.after (limitStrOf limit)) st.s e sf →
      ∀ fuel, k < fuel →
        walkTasks call query limit next fuel s = some (.returned (some e), sf)) := by
  refine ⟨fun h fuel => walkTasks_first_page_fails call query limit next fuel s sf e h, ?_⟩
  intro st0 st k hfirst hturns hafter hlen htasks hfail fuel hfuel
  obtain ⟨m, hm⟩ : ∃ m, fuel = (m + 1) + k := ⟨fuel - k - 1, by omega⟩
  rw [walkTasks_firstPage call query limit next fuel s st0 hfirst, hm,
    walkLoop_goodTurns call _ next k (m + 1) st0 st hturns]
  exact walkLoop_page_fails call _ next m st sf e hafter hlen htasks hfail

/-- Witness of C11: a page of the tasks `a`, `bad`, `c` whose pipeline fails for `bad`
(the error is returned after the calls for `a` and `bad`, there is none for `c`), and a
stream whose second fetch fails (the error is returned after two fetches and the call
for the task of the first page). -/
theorem walkTasks_returns_first_failure_witness :
    walkTasks scriptedRemote none 5000 failingStage 0
        { pages := [⟨[policyTask "a" "p1" 1, policyTask "bad" "p1" 2, policyTask "c" "p1" 3],
                      ""⟩] }
      = some (.returned (some (.other "write failed")),
          { pages := [], fetches := [firstQuery],
            invoked := [policyTask "a" "p1" 1, policyTask "bad" "p1" 2] }) ∧
    walkTasks failingRemote none 5000 recordingStage 1
        { pages := [⟨[policyTask "a" "p1" 1], "0123456789abcdef"⟩] }
      = some (.returned (some (.other "problem running request: timeout")),
          { pages := [], fetches := [firstQuery, afterQuery "0123456789abcdef"],
            invoked := [policyTask "a" "p1" 1] }) :=
  ⟨(walkTasks_returns_first_failure scriptedRemote none 5000 failingStage
      { pages := [⟨[policyTask "a" "p1" 1, policyTask "bad" "p1" 2, policyTask "c" "p1" 3],
                    ""⟩] }
      { pages := [], fetches := [firstQuery],
        invoked := [policyTask "a" "p1" 1, policyTask "bad" "p1" 2] }
      (.other "write failed")).1
      (Or.inr ⟨[policyTask "a" "p1" 1], policyTask "bad" "p1" 2, [policyTask "c" "p1" 3], "",
        { pages := [], fetches := [firstQuery], invoked := [] },
        by decide, by decide, by decide⟩) 0,
   (walkTasks_returns_first_failure failingRemote none 5000 recordingStage
      { pages := [⟨[policyTask "a" "p1" 1], "0123456789abcdef"⟩] }
      { pages := [], fetches := [firstQuery, afterQuery "0123456789abcdef"],
        invoked := [policyTask "a" "p1" 1] }
      (.other "problem running request: timeout")).2
      ⟨[policyTask "a" "p1" 1], "0123456789abcdef",
        { pages := [], fetches := [firstQuery], invoked := [policyTask "a" "p1" 1] }⟩
      ⟨[policyTask "a" "p1" 1], "0123456789abcdef",
        { pages := [], fetches := [firstQuery], invoked := [policyTask "a" "p1" 1] }⟩
      0 (by decide) rfl (by decide) (by decide) (by decide)
      (Or.inl ⟨[], "", by decide⟩) 1 (by decide)⟩

/-- The write stage of a task that marshals, on a path that can be opened. -/
theorem writeTaskPipeline_written (cfg : cacheConfig) (t : Task) (w : World β ρ)
    (hbase : filepath.Base (cfg.taskPath t) ≠ ".json")
    (hopen : lockedfile.OpenFileWrite w.fs (cfg.taskPath t) = .ok ())
    (henc : J.marshalErr t = none) :
    writeTaskPipeline J cfg t w = (none, written J w (cfg.taskPath t) t) := by
  simp [writeTaskPipeline, writeTask, hbase, hopen, henc, written]

/-- The write stage leaves the state as it was when the write is skipped or the path
cannot be opened. -/
theorem writeTaskPipeline_frozen (cfg : cacheConfig) (t : Task) (w : World β ρ)
    (h : ¬ (filepath.Base (cfg.taskPath t) ≠ ".json" ∧
        lockedfile.OpenFileWrite w.fs (cfg.taskPath t) = .ok ())) :
    (writeTaskPipeline J cfg t w).2 = w := by
  by_cases hbase : filepath.Base (cfg.taskPath t) = ".json"
  · simp [writeTaskPipeline, writeTask, hbase]
  · cases hopen : lockedfile.OpenFileWrite w.fs (cfg.taskPath t) with
    | error err => simp [writeTaskPipeline, writeTask, hbase, hopen]
    | ok u => exact absurd ⟨hbase, hopen⟩ h

theorem filterUpdatesOnly_of_read_err (cfg : cacheConfig)
    (next : taskPipelineFunc (World β ρ)) (t loaded : Task) (e : Err) (w : World β ρ)
    (hr : readTask J (cfg.taskPath t) w.fs = (loaded, some e)) :
    filterUpdatesOnly J cfg next t w = if os.IsNotExist e = true then next t w else (some e, w) := by
  unfold filterUpdatesOnly
  simp only [hr]

theorem filterUpdatesOnly_of_read_ok (cfg : cacheConfig)
    (next : taskPipelineFunc (World β ρ)) (t loaded : Task) (w : World β ρ)
    (hr : readTask J (cfg.taskPath t) w.fs = (loaded, none)) :
    filterUpdatesOnly J cfg next t w
      = if t.Updated.Before loaded.Updated = true then (none, w) else next t w := by
  unfold filterUpdatesOnly
  simp only [hr]

/-- The filtered write of a task that marshals and is accepted writes the entry and
returns `nil`. -/
theorem filter_write_accepts (cfg : cacheConfig) (t : Task) (w : World β ρ)
    (henc : J.marshalErr t = none) (h : acceptsTask J w (cfg.taskPath t) t) :
    filterUpdatesOnly J cfg (writeTaskPipeline J cfg) t w
      = (none, written J w (cfg.taskPath t) t) := by
  obtain ⟨hbase, hopen, hread⟩ := h
  have hwrite : writeTaskPipeline J cfg t w = (none, written J w (cfg.taskPath t) t) :=
    writeTaskPipeline_written J cfg t w hbase hopen henc
  cases hr : readTask J (cfg.taskPath t) w.fs with
  | mk loaded err =>
    rw [hr] at hread
    cases err with
    | some e =>
      simp only at hread
      rw [filterUpdatesOnly_of_read_err J cfg _ t loaded e w hr, if_pos hread, hwrite]
    | none =>
      simp only at hread
      have hb : ¬ t.Updated.Before loaded.Updated = true := by
        simp [GoTime.Before, hread]
      rw [filterUpdatesOnly_of_read_ok J cfg _ t loaded w hr, if_neg hb, hwrite]

/-- The filtered write of a task that is not accepted leaves the world as it was. -/
theorem filter_write_rejects (cfg : cacheConfig) (t : Task) (w : World β ρ)
    (h : ¬ acceptsTask J w (cfg.taskPath t) t) :
    (filterUpdatesOnly J cfg (writeTaskPipeline J cfg) t w).2 = w := by
  by_cases hw : filepath.Base (cfg.taskPath t) ≠ ".json" ∧
      lockedfile.OpenFileWrite w.fs (cfg.taskPath t) = .ok ()
  · cases hr : readTask J (cfg.taskPath t) w.fs with
    | mk loaded err =>
      cases err with
      | some e =>
        have hm : ¬ os.IsNotExist e = true := by
          intro hh
          apply h
          refine ⟨hw.1, hw.2, ?_⟩
          rw [hr]
          exact hh
        rw [filterUpdatesOnly_of_read_err J cfg _ t loaded e w hr, if_neg hm]
      | none =>
        have hm : t.Updated.unixNano < loaded.Updated.unixNano := by
          by_contra hh
          apply h
          refine ⟨hw.1, hw.2, ?_⟩
          rw [hr]
          exact hh
        have hb : t.Updated.Before loaded.Updated = true := by
          simp [GoTime.Before, hm]
        rw [filterUpdatesOnly_of_read_ok J cfg _ t loaded w hr, if_pos hb]
  · have hwrite : (writeTaskPipeline J cfg t w).2 = w := writeTaskPipeline_frozen J cfg t w hw
    cases hr : readTask J (cfg.taskPath t) w.fs with
    | mk loaded err =>
      cases err with
      | some e =>
        rw [filterUpdatesOnly_of_read_err J cfg _ t loaded e w hr]
        split
        · exact hwrite
        · rfl
      | none =>
        rw [filterUpdatesOnly_of_read_ok J cfg _ t loaded w hr]
        split
        · rfl
        · exact hwrite

/-- When the filtered write of a task that marshals returns an error, no task of that
entry path is accepted. -/
theorem filter_write_error_frozen (cfg : cacheConfig) (t t1 : Task) (w : World β ρ)
    (henc : J.marshalErr t = none)
    (hpath : cfg.taskPath t1 = cfg.taskPath t)
    (herr : (filterUpdatesOnly J cfg (writeTaskPipeline J cfg) t w).1 ≠ none) :
    ¬ acceptsTask J w (cfg.taskPath t1) t1 := by
  rw [hpath]
  intro hacc
  obtain ⟨hbase, hopen, hread⟩ := hacc
  have hwrite : writeTaskPipeline J cfg t w = (none, written J w (cfg.taskPath t) t) :=
    writeTaskPipeline_written J cfg t w hbase hopen henc
  apply herr
  cases hr : readTask J (cfg.taskPath t) w.fs with
  | mk loaded err =>
    rw [hr] at hread
    cases err with
    | some e =>
      simp only at hread
      rw [filterUpdatesOnly_of_read_err J cfg _ t loaded e w hr, if_pos hread, hwrite]
    | none =>
      rw [filterUpdatesOnly_of_read_ok J cfg _ t loaded w hr]
      split
      · rfl
      · rw [hwrite]

theorem written_written (w : World β ρ) (p : String) (a b : Task) :
    written J (written J w p a) p b = written J w p b := by
  unfold written FS.put
  simp only [World.mk.injEq, FS.mk.injEq, true_and, and_true]
  funext q
  by_cases hq : q = p <;> simp [hq]

/-- After an accepted write of `a`, which marshals, the task `b` of the same entry path
is accepted exactly when it is not older than `a`. -/
theorem acceptsTask_written (w : World β ρ) (p : String) (a b : Task)
    (henc : J.marshalErr a = none) (h : acceptsTask J w p a) :
    acceptsTask J (written J w p a) p b ↔ ¬ b.Updated.unixNano < a.Updated.unixNano := by
  obtain ⟨hbase, hopen, _⟩ := h
  have hopen2 : lockedfile.OpenFileWrite (written J w p a).fs p = .ok () := by
    rw [OpenFileWrite_ok_iff] at hopen ⊢
    exact hopen
  have hread : readTask J p (written J w p a).fs = (a, none) := by
    unfold readTask
    have := OpenFileRead_put w.fs p (J.encode a) hopen
    simp only [written]
    rw [this]
    simp [TaskCodec.Decode, J.decode_encode a henc]
  unfold acceptsTask
  rw [hread]
  simp only
  exact ⟨fun h => h.2.2, fun h => ⟨hbase, hopen2, h⟩⟩

/-- A task that is accepted where another of the same entry path is not is the newer. -/
theorem lt_of_accepts_of_rejects (w : World β ρ) (p : String) (a b : Task)
    (ha : acceptsTask J w p a) (hb : ¬ acceptsTask J w p b) :
    b.Updated.unixNano < a.Updated.unixNano := by
  obtain ⟨hbase, hopen, hread⟩ := ha
  unfold acceptsTask at hb
  cases hr : readTask J p w.fs with
  | mk loaded err =>
    rw [hr] at hread hb
    cases err with
    | some e =>
      simp only at hread hb
      exact absurd ⟨hbase, hopen, hread⟩ hb
    | none =>
      simp only at hread hb
      have : b.Updated.unixNano < loaded.Updated.unixNano := by
        by_contra hcon
        exact hb ⟨hbase, hopen, hcon⟩
      omega

/-- Two filtered writes to one entry path commute when the tasks marshal and are not
equally new. -/
theorem filter_write_commute (cfg : cacheConfig) (a b : Task) (w : World β ρ)
    (hea : J.marshalErr a = none) (heb : J.marshalErr b = none)
    (hpath : cfg.taskPath b = cfg.taskPath a)
    (hne : a.Updated.unixNano ≠ b.Updated.unixNano) :
    (filterUpdatesOnly J cfg (writeTaskPipeline J cfg) b
        (filterUpdatesOnly J cfg (writeTaskPipeline J cfg) a w).2).2
      = (filterUpdatesOnly J cfg (writeTaskPipeline J cfg) a
          (filterUpdatesOnly J cfg (writeTaskPipeline J cfg) b w).2).2 := by
  by_cases ha : acceptsTask J w (cfg.taskPath a) a
  · by_cases hb : acceptsTask J w (cfg.taskPath a) b
    · have hb0 : acceptsTask J w (cfg.taskPath b) b := by rw [hpath]; exact hb
      rw [filter_write_accepts J cfg a w hea ha, filter_write_accepts J cfg b w heb hb0]
      simp only [hpath]
      by_cases hlt : b.Updated.unixNano < a.Updated.unixNano
      · have h1 : ¬ acceptsTask J (written J w (cfg.taskPath a) a) (cfg.taskPath b) b := by
          rw [hpath, acceptsTask_written J w _ a b hea ha]
          exact fun h => h hlt
        have h2 : acceptsTask J (written J w (cfg.taskPath a) b) (cfg.taskPath a) a := by
          rw [acceptsTask_written J w _ b a heb hb]
          omega
        rw [filter_write_rejects J cfg b _ h1, filter_write_accepts J cfg a _ hea h2,
          written_written]
      · have h1 : acceptsTask J (written J w (cfg.taskPath a) a) (cfg.taskPath b) b := by
          rw [hpath, acceptsTask_written J w _ a b hea ha]
          exact hlt
        have h2 : ¬ acceptsTask J (written J w (cfg.taskPath a) b) (cfg.taskPath a) a := by
          rw [acceptsTask_written J w _ b a heb hb]
          omega
        rw [filter_write_accepts J cfg b _ heb h1, filter_write_rejects J cfg a _ h2, hpath,
          written_written]
    · have hb0 : ¬ acceptsTask J w (cfg.taskPath b) b := by rw [hpath]; exact hb
      have hlt := lt_of_accepts_of_rejects J w _ a b ha hb
      have h1 : ¬ acceptsTask J (written J w (cfg.taskPath a) a) (cfg.taskPath b) b := by
        rw [hpath, acceptsTask_written J w _ a b hea ha]
        exact fun h => h hlt
      rw [filter_write_accepts J cfg a w hea ha, filter_write_rejects J cfg b w hb0]
      simp only
      rw [filter_write_rejects J cfg b _ h1, filter_write_accepts J cfg a w hea ha]
  · by_cases hb : acceptsTask J w (cfg.taskPath a) b
    · have hb0 : acceptsTask J w (cfg.taskPath b) b := by rw [hpath]; exact hb
      have hlt := lt_of_accepts_of_rejects J w _ b a hb ha
      have h2 : ¬ acceptsTask J (written J w (cfg.taskPath a) b) (cfg.taskPath a) a := by
        rw [acceptsTask_written J w _ b a heb hb]
        exact fun h => h hlt
      rw [filter_write_rejects J cfg a w ha, filter_write_accepts J cfg b w heb hb0]
      simp only [hpath]
      rw [filter_write_rejects J cfg a _ h2]
    · have hb0 : ¬ acceptsTask J w (cfg.taskPath b) b := by rw [hpath]; exact hb
      rw [filter_write_rejects J cfg a w ha, filter_write_rejects J cfg b w hb0,
        filter_write_rejects J cfg a w ha]

theorem foldl_filter_write_frozen (cfg : cacheConfig) (ts : List Task) (w : World β ρ)
    (h : ∀ t ∈ ts, ¬ acceptsTask J w (cfg.taskPath t) t) :
    ts.foldl (fun s t => (filterUpdatesOnly J cfg (writeTaskPipeline J cfg) t s).2) w = w := by
  induction ts with
  | nil => rfl
  | cons t rest ih =>
    simp only [List.foldl_cons]
    rw [filter_write_rejects J cfg t w (h t (by simp))]
    exact ih (fun t1 h1 => h t1 (by simp [h1]))

/-- The state `drainTasks` ends in, for tasks of one entry path that marshal, through the
filtered write, is the state after all of them: a task for which the stage returns an error
leaves the state as it is, and so do the tasks after it. -/
theorem drainTasks_filter_write_state (cfg : cacheConfig) (p : String) (ts : List Task)
    (w : World β ρ) (hpath : ∀ t ∈ ts, cfg.taskPath t = p)
    (henc : ∀ t ∈ ts, J.marshalErr t = none) :
    (drainTasks (filterUpdatesOnly J cfg (writeTaskPipeline J cfg)) ts w).2
      = ts.foldl (fun s t => (filterUpdatesOnly J cfg (writeTaskPipeline J cfg) t s).2) w := by
  induction ts generalizing w with
  | nil => rfl
  | cons t rest ih =>
    have hrest : ∀ t1 ∈ rest, cfg.taskPath t1 = p := fun t1 h1 => hpath t1 (by simp [h1])
    have hencrest : ∀ t1 ∈ rest, J.marshalErr t1 = none := fun t1 h1 => henc t1 (by simp [h1])
    cases hr : filterUpdatesOnly J cfg (writeTaskPipeline J cfg) t w with
    | mk r s1 =>
      cases r with
      | none =>
        simp only [drainTasks, hr, List.foldl_cons]
        exact ih s1 hrest hencrest
      | some e =>
        have herr : (filterUpdatesOnly J cfg (writeTaskPipeline J cfg) t w).1 ≠ none := by
          rw [hr]; simp
        have hfrozen : ∀ t1 ∈ t :: rest, ¬ acceptsTask J w (cfg.taskPath t1) t1 := by
          intro t1 h1
          exact filter_write_error_frozen J cfg t t1 w (henc t (by simp))
            (by rw [hpath t1 h1, hpath t (by simp)]) herr
        have hs1 : s1 = w := by
          have := filter_write_rejects J cfg t w (hfrozen t (by simp))
          rw [hr] at this
          exact this
        rw [foldl_filter_write_frozen J cfg (t :: rest) w hfrozen]
        simp only [drainTasks, hr]
        exact hs1

/-- C18, as stated, fails: two tasks of the policy `p1`, both updated at 5.  Processed
as `a`, `b` the entry holds `b`; processed as `b`, `a` it holds `a`. -/
theorem filterUpdatesOnly_order_matters_for_ties :
    examplePolicyCfg.taskPath (exampleTask "a" 5) = examplePolicyCfg.taskPath (exampleTask "b" 5) ∧
    readTask exampleCodec "cache/byPolicy/p1.json"
        (drainTasks (filterUpdatesOnly exampleCodec examplePolicyCfg
          (writeTaskPipeline exampleCodec examplePolicyCfg))
          [exampleTask "a" 5, exampleTask "b" 5] cacheWorld).2.fs
      = (exampleTask "b" 5, none) ∧
    readTask exampleCodec "cache/byPolicy/p1.json"
        (drainTasks (filterUpdatesOnly exampleCodec examplePolicyCfg
          (writeTaskPipeline exampleCodec examplePolicyCfg))
          [exampleTask "b" 5, exampleTask "a" 5] cacheWorld).2.fs
      = (exampleTask "a" 5, none) := by
  decide

/-- C18, amended: for every list of tasks that share one entry path, that all marshal
(the year of `Updated` within 0-9999) and in which any two tasks with the same `Updated`
are equal, and for every permutation of the list, processing the list and processing the
permutation task by task through `filterUpdatesOnly cfg (writeTaskPipeline cfg)` from
the same state end in the same state, so in the same cache entry. -/
theorem filterUpdatesOnly_order_independent (cfg : cacheConfig) (p : String)
    (ts ts1 : List Task) (w : World β ρ) (hperm : ts.Perm ts1)
    (hpath : ∀ t ∈ ts, cfg.taskPath t = p)
    (henc : ∀ t ∈ ts, J.marshalErr t = none)
    (hties : ∀ a ∈ ts, ∀ b ∈ ts, a.Updated = b.Updated → a = b) :
    (drainTasks (filterUpdatesOnly J cfg (writeTaskPipeline J cfg)) ts w).2
      = (drainTasks (filterUpdatesOnly J cfg (writeTaskPipeline J cfg)) ts1 w).2 := by
  have hpath1 : ∀ t ∈ ts1, cfg.taskPath t = p := fun t ht => hpath t (hperm.symm.subset ht)
  have henc1 : ∀ t ∈ ts1, J.marshalErr t = none := fun t ht => henc t (hperm.symm.subset ht)
  rw [drainTasks_filter_write_state J cfg p ts w hpath henc,
    drainTasks_filter_write_state J cfg p ts1 w hpath1 henc1]
  apply List.Perm.foldl_eq' hperm
  intro x hx y hy z
  by_cases hxy : x = y
  · rw [hxy]
  · have hne : x.Updated.unixNano ≠ y.Updated.unixNano := by
      intro h
      apply hxy
      apply hties x hx y hy
      cases hxu : x.Updated
      cases hyu : y.Updated
      rw [hxu, hyu] at h
      simp only at h
      rw [h]
    exact filter_write_commute J cfg x y z (henc x hx) (henc y hy)
      (by rw [hpath x hx, hpath y hy]) hne

/-- Witness of C18, amended: the tasks updated at 10, 11 and 9 and a permutation of
them; both orders leave the task updated at 11. -/
theorem filterUpdatesOnly_order_independent_witness :
    readTask exampleCodec "cache/byPolicy/p1.json"
        (drainTasks (filterUpdatesOnly exampleCodec examplePolicyCfg
          (writeTaskPipeline exampleCodec examplePolicyCfg))
          [exampleTask "u3" 9, exampleTask "u1" 10, exampleTask "u2" 11] cacheWorld).2.fs
      = (exampleTask "u2" 11, none) ∧
    (drainTasks (filterUpdatesOnly exampleCodec examplePolicyCfg
        (writeTaskPipeline exampleCodec examplePolicyCfg))
        [exampleTask "u1" 10, exampleTask "u2" 11, exampleTask "u3" 9] cacheWorld).2
      = (drainTasks (filterUpdatesOnly exampleCodec examplePolicyCfg
          (writeTaskPipeline exampleCodec examplePolicyCfg))
          [exampleTask "u3" 9, exampleTask "u1" 10, exampleTask "u2" 11] cacheWorld).2 :=
  ⟨by decide,
   filterUpdatesOnly_order_independent exampleCodec examplePolicyCfg "cache/byPolicy/p1.json"
     [exampleTask "u1" 10, exampleTask "u2" 11, exampleTask "u3" 9]
     [exampleTask "u3" 9, exampleTask "u1" 10, exampleTask "u2" 11] cacheWorld
     (by decide) (by decide) (by decide) (by decide)⟩

/-- C22, as stated, fails: the entry `p1` of the by-policy namespace is a regular file and
the task has the policy id `p1.json/x`.  No entry exists at its path, the read fails with
`ENOTDIR`, and the filter returns that error; the `next` that would return `nil` is not
invoked. -/
theorem filterUpdatesOnly_absent_under_regular_file :
    examplePolicyCfg.taskPath (policyTask "u9" "p1.json/x" 5)
      = "cache/byPolicy/p1.json/x.json" ∧
    entryFS.files "cache/byPolicy/p1.json/x.json" = none ∧
    entryFS.dirExists "cache/byPolicy/p1.json/x.json" = false ∧
    ((fun _ w => (none, w)) : taskPipelineFunc (World Bytes Unit))
      (policyTask "u9" "p1.json/x" 5) ⟨entryFS, ()⟩ = (none, ⟨entryFS, ()⟩) ∧
    (filterUpdatesOnly exampleCodec examplePolicyCfg (fun _ w => (none, w))
        (policyTask "u9" "p1.json/x" 5) (⟨entryFS, ()⟩ : World Bytes Unit)).1
      = some (.pathError "open" "cache/byPolicy/p1.json/x.json" .ENOTDIR) := by
  refine ⟨by decide, by decide, by decide, rfl, by decide⟩

/-- C22, amended: `filterUpdatesOnly cfg next` on `t` is exactly one call of `next` on `t`
in the state it was given, with the result and the state of that call, (1) when the read
of the entry path fails with an error that `os.IsNotExist` classifies as not-found,
(2) in particular when nothing exists at the entry path, the path is in its cleaned
form, holds no NUL byte, has fewer than 4096 bytes and no element of more than 255
bytes, and no regular file stands where a directory of the path is needed, and (3) when
the read gives a task whose `Updated` is not strictly after that of `t`.  (4) So a task
that marshals and is as new as the cached one overwrites the entry through the write
stage. -/
theorem filterUpdatesOnly_invokes_next (cfg : cacheConfig)
    (next : taskPipelineFunc (World β ρ)) (t : Task) (w : World β ρ) :
    (∀ loaded err, readTask J (cfg.taskPath t) w.fs = (loaded, some err) →
      os.IsNotExist err = true → filterUpdatesOnly J cfg next t w = next t w) ∧
    (w.fs.files (cfg.taskPath t) = none → w.fs.dirExists (cfg.taskPath t) = false →
      filepath.Clean (cfg.taskPath t) = cfg.taskPath t →
      Char.ofNat 0 ∉ (cfg.taskPath t).data → (cfg.taskPath t).utf8ByteSize < 4096 →
      (∀ a ∈ cfg.taskPath t :: FS.ancestors (cfg.taskPath t).length (cfg.taskPath t),
        (filepath.Base a).utf8ByteSize ≤ 255) →
      (∀ a ∈ FS.ancestors (cfg.taskPath t).length (cfg.taskPath t), w.fs.files a = none) →
      filterUpdatesOnly J cfg next t w = next t w) ∧
    (∀ loaded, readTask J (cfg.taskPath t) w.fs = (loaded, none) →
      ¬ t.Updated.unixNano < loaded.Updated.unixNano →
      filterUpdatesOnly J cfg next t w = next t w) ∧
    (∀ cur, entryIs J w (cfg.taskPath t) cur → filepath.Base (cfg.taskPath t) ≠ ".json" →
      J.marshalErr t = none → t.Updated = cur.Updated →
      (filterUpdatesOnly J cfg (writeTaskPipeline J cfg) t w).1 = none ∧
      readTask J (cfg.taskPath t) (filterUpdatesOnly J cfg (writeTaskPipeline J cfg) t w).2.fs
        = (t, none)) := by
  refine ⟨?_, ?_, ?_, ?_⟩
  · intro loaded err hr hkind
    rw [filterUpdatesOnly_of_read_err J cfg next t loaded err w hr, if_pos hkind]
  · intro hfile hdir _ hnul hlen hnames hanc
    have hr := readTask_enoent J (cfg.taskPath t) w.fs hfile hdir hnul hlen hnames hanc
    have hkind : os.IsNotExist (.pathError "open" (cfg.taskPath t) .ENOENT) = true := rfl
    rw [filterUpdatesOnly_of_read_err J cfg next t _ _ w hr, if_pos hkind]
  · intro loaded hr hnot
    have hb : ¬ t.Updated.Before loaded.Updated = true := by
      simp [GoTime.Before, hnot]
    rw [filterUpdatesOnly_of_read_ok J cfg next t loaded w hr, if_neg hb]
  · intro cur hentry hbase henc heq
    have hstep := filter_write_step J cfg t cur w hbase hentry henc
    have hnot : ¬ t.Updated.unixNano < cur.Updated.unixNano := by
      rw [heq]
      omega
    rw [if_neg hnot] at hstep
    exact ⟨hstep.1, readTask_of_entryIs J _ _ t hstep.2⟩

/-- Witness of C22, amended: in the cache of `main` with the entry `p1` updated at 5,
there is no entry of `p9`, and the task of `p1` updated at 5 is as new as the entry; the
`next` that fails is invoked in both cases, and the write stage overwrites the entry
`u1` with the task `u2` of the same time. -/
theorem filterUpdatesOnly_invokes_next_witness :
    filterUpdatesOnly exampleCodec examplePolicyCfg (fun _ w => (some (.other "invoked"), w))
        (policyTask "u9" "p9" 5) (⟨entryFS, ()⟩ : World Bytes Unit)
      = (some (.other "invoked"), ⟨entryFS, ()⟩) ∧
    filterUpdatesOnly exampleCodec examplePolicyCfg (fun _ w => (some (.other "invoked"), w))
        (exampleTask "u2" 5) (⟨entryFS, ()⟩ : World Bytes Unit)
      = (some (.other "invoked"), ⟨entryFS, ()⟩) ∧
    readTask exampleCodec "cache/byPolicy/p1.json" entryFS = (exampleTask "u1" 5, none) ∧
    readTask exampleCodec "cache/byPolicy/p1.json"
        (filterUpdatesOnly exampleCodec examplePolicyCfg
          (writeTaskPipeline exampleCodec examplePolicyCfg) (exampleTask "u2" 5)
          (⟨entryFS, ()⟩ : World Bytes Unit)).2.fs
      = (exampleTask "u2" 5, none) :=
  ⟨(filterUpdatesOnly_invokes_next exampleCodec examplePolicyCfg
      (fun _ w => (some (.other "invoked"), w)) (policyTask "u9" "p9" 5)
      (⟨entryFS, ()⟩ : World Bytes Unit)).2.1 (by decide) (by decide) (by decide) (by decide)
      (by decide) (by decide) (by decide),
   (filterUpdatesOnly_invokes_next exampleCodec examplePolicyCfg
      (fun _ w => (some (.other "invoked"), w)) (exampleTask "u2" 5)
      (⟨entryFS, ()⟩ : World Bytes Unit)).2.2.1 (exampleTask "u1" 5) (by decide) (by decide),
   by decide,
   ((filterUpdatesOnly_invokes_next exampleCodec examplePolicyCfg
      (fun _ w => (none, w)) (exampleTask "u2" 5)
      (⟨entryFS, ()⟩ : World Bytes Unit)).2.2.2 (exampleTask "u1" 5)
      ⟨by decide, by decide,
        (OpenFileWrite_ok_iff _ _).2 ⟨by decide, by decide, by decide, by decide⟩⟩
      (by decide) (by decide) (by decide)).2⟩

/-- C23, as stated, fails: the task of policy `p1` is updated at 10^21 ns after the
epoch, in the year 33658, the namespace directory exists and no entry does.  The first
application opens the entry, fails to marshal the task and returns that error, leaving
an empty file; the second application fails to decode the empty file and returns `EOF`,
a different result. -/
theorem filterUpdatesOnly_not_idempotent_unmarshalable :
    (exampleTask "u1" 1000000000000000000000).Policy.ID = "p1" ∧
    cacheWorld.fs.dirExists "cache/byPolicy" = true ∧
    (filterUpdatesOnly exampleCodec examplePolicyCfg
        (writeTaskPipeline exampleCodec examplePolicyCfg)
        (exampleTask "u1" 1000000000000000000000) cacheWorld).1
      = some (.other ("json: error calling MarshalJSON for type time.Time: " ++
          "Time.MarshalJSON: year outside of range [0,9999]")) ∧
    (filterUpdatesOnly exampleCodec examplePolicyCfg
        (writeTaskPipeline exampleCodec examplePolicyCfg)
        (exampleTask "u1" 1000000000000000000000) cacheWorld).2.fs.files
        "cache/byPolicy/p1.json"
      = some (.junk "") ∧
    (filterUpdatesOnly exampleCodec examplePolicyCfg
        (writeTaskPipeline exampleCodec examplePolicyCfg)
        (exampleTask "u1" 1000000000000000000000)
        (filterUpdatesOnly exampleCodec examplePolicyCfg
          (writeTaskPipeline exampleCodec examplePolicyCfg)
          (exampleTask "u1" 1000000000000000000000) cacheWorld).2).1
      = some (.decode "EOF") := by
  decide

/-- C23, amended: for a task that marshals (the year of `Updated` within 0-9999),
applying `filterUpdatesOnly cfg (writeTaskPipeline cfg)` a second time, in the state the
first application left, returns the same result and leaves the same state as the first
application.  This holds for every config and state, in particular for a task with a
non-empty key and a state whose namespace directory exists. -/
theorem filterUpdatesOnly_idempotent (cfg : cacheConfig) (t : Task) (w : World β ρ)
    (henc : J.marshalErr t = none) :
    filterUpdatesOnly J cfg (writeTaskPipeline J cfg) t
        (filterUpdatesOnly J cfg (writeTaskPipeline J cfg) t w).2
      = filterUpdatesOnly J cfg (writeTaskPipeline J cfg) t w := by
  by_cases hacc : acceptsTask J w (cfg.taskPath t) t
  · have hagain : acceptsTask J (written J w (cfg.taskPath t) t) (cfg.taskPath t) t := by
      rw [acceptsTask_written J w _ t t henc hacc]
      omega
    rw [filter_write_accepts J cfg t w henc hacc]
    simp only
    rw [filter_write_accepts J cfg t _ henc hagain, written_written]
  · rw [filter_write_rejects J cfg t w hacc]

/-- Witness of C23, amended: the task of policy `p1` updated at 5 marshals; written to
the empty by-policy namespace and applied again, the result is `nil` both times and the
entry holds the task. -/
theorem filterUpdatesOnly_idempotent_witness :
    exampleCodec.marshalErr (exampleTask "u1" 5) = none ∧
    (filterUpdatesOnly exampleCodec examplePolicyCfg
        (writeTaskPipeline exampleCodec examplePolicyCfg) (exampleTask "u1" 5) cacheWorld).1
      = none ∧
    readTask exampleCodec "cache/byPolicy/p1.json"
        (filterUpdatesOnly exampleCodec examplePolicyCfg
          (writeTaskPipeline exampleCodec examplePolicyCfg) (exampleTask "u1" 5)
          cacheWorld).2.fs
      = (exampleTask "u1" 5, none) ∧
    filterUpdatesOnly exampleCodec examplePolicyCfg
        (writeTaskPipeline exampleCodec examplePolicyCfg) (exampleTask "u1" 5)
        (filterUpdatesOnly exampleCodec examplePolicyCfg
          (writeTaskPipeline exampleCodec examplePolicyCfg) (exampleTask "u1" 5)
          cacheWorld).2
      = filterUpdatesOnly exampleCodec examplePolicyCfg
          (writeTaskPipeline exampleCodec examplePolicyCfg) (exampleTask "u1" 5) cacheWorld :=
  ⟨by decide, by decide, by decide,
   filterUpdatesOnly_idempotent exampleCodec examplePolicyCfg (exampleTask "u1" 5) cacheWorld
     (by decide)⟩

/-- What the probe handler renders when the read fails. -/
theorem probeHandler_of_read_error (path : tgtStr → String) (target : String)
    (elapsedMs : Int) (fs : FS β) (task : Task) (err : Err)
    (hread : readTask J (path target) fs = (task, some err)) :
    probeHandler J path target elapsedMs fs
      = .metrics [{ name := "probe_success", value := 0 },
                  { name := "probe_duration_seconds", value := elapsedMs },
                  { name := "acronis_policy_state", value := 3 }] := by
  have h1 : Registry.Register [] { name := "probe_success" }
      = some [{ name := "probe_success" }] := by decide
  have h2 : Registry.Register [{ name := "probe_success" }]
      { name := "probe_duration_seconds" }
      = some [{ name := "probe_success" }, { name := "probe_duration_seconds" }] := by decide
  have h3 : Registry.Set [{ name := "probe_success" }, { name := "probe_duration_seconds" }]
      "probe_success" 0
      = [{ name := "probe_success" }, { name := "probe_duration_seconds" }] := by decide
  have h4 : registerPolicyState { task with Result := { task.Result with Code := "nomatch" } }
      = { name := "acronis_policy_state", value := 3 } := by
    simp [registerPolicyState]
  have h5 : Registry.Register [{ name := "probe_success" }, { name := "probe_duration_seconds" }]
      { name := "acronis_policy_state", value := 3 }
      = some [{ name := "probe_success" }, { name := "probe_duration_seconds" },
              { name := "acronis_policy_state", value := 3 }] := by decide
  unfold probeHandler
  simp only [h1, h2, hread, h3]
  unfold probeFinish
  rw [h4]
  simp only [h5]
  simp [Registry.Set]

/-- C24: the gauge built by `registerPolicyState` is `acronis_policy_state`, with the
value 0 for the result code `ok`, 1 for `warning`, 2 for `error` and 3 for every other
code; and the probe of a target at whose path nothing exists renders `probe_success` 0
and `acronis_policy_state` 3. -/
theorem registerPolicyState_value (task : Task) (path : tgtStr → String) (target : String)
    (elapsedMs : Int) (fs : FS β) :
    (registerPolicyState task).name = "acronis_policy_state" ∧
    (task.Result.Code = "ok" → (registerPolicyState task).value = 0) ∧
    (task.Result.Code = "warning" → (registerPolicyState task).value = 1) ∧
    (task.Result.Code = "error" → (registerPolicyState task).value = 2) ∧
    (task.Result.Code ≠ "ok" → task.Result.Code ≠ "warning" → task.Result.Code ≠ "error" →
      (registerPolicyState task).value = 3) ∧
    (fs.files (path target) = none → fs.dirExists (path target) = false →
      probeHandler J path target elapsedMs fs
        = .metrics [{ name := "probe_success", value := 0 },
                    { name := "probe_duration_seconds", value := elapsedMs },
                    { name := "acronis_policy_state", value := 3 }]) := by
  refine ⟨rfl, ?_, ?_, ?_, ?_, ?_⟩
  · intro h
    simp [registerPolicyState, h]
  · intro h
    simp [registerPolicyState, h]
  · intro h
    simp [registerPolicyState, h]
  · intro h1 h2 h3
    simp [registerPolicyState, h1, h2, h3]
  · intro hfile hdir
    obtain ⟨errno, hread⟩ := readTask_error_of_absent J (path target) fs hfile hdir
    exact probeHandler_of_read_error J path target elapsedMs fs _ _ hread

/-- Witness of C24: the four kinds of result code, and the target `missing` of
`TestProbeHandler`, for which the cache directory holds no file. -/
theorem registerPolicyState_value_witness :
    (registerPolicyState { Result := { Code := "ok" } }).value = 0 ∧
    (registerPolicyState { Result := { Code := "warning" } }).value = 1 ∧
    (registerPolicyState { Result := { Code := "error" } }).value = 2 ∧
    (registerPolicyState { Result := { Code := "abandoned" } }).value = 3 ∧
    probeHandler jsonCodec (stdTargetToCachePathFunc "testdata/mock/byTask") "missing" 2
        mistypedFS
      = .metrics [{ name := "probe_success", value := 0 },
                  { name := "probe_duration_seconds", value := 2 },
                  { name := "acronis_policy_state", value := 3 }] :=
  ⟨(registerPolicyState_value jsonCodec { Result := { Code := "ok" } }
      (stdTargetToCachePathFunc "testdata/mock/byTask") "missing" 2 mistypedFS).2.1 rfl,
   (registerPolicyState_value jsonCodec { Result := { Code := "warning" } }
      (stdTargetToCachePathFunc "testdata/mock/byTask") "missing" 2 mistypedFS).2.2.1 rfl,
   (registerPolicyState_value jsonCodec { Result := { Code := "error" } }
      (stdTargetToCachePathFunc "testdata/mock/byTask") "missing" 2 mistypedFS).2.2.2.1 rfl,
   (registerPolicyState_value jsonCodec { Result := { Code := "abandoned" } }
      (stdTargetToCachePathFunc "testdata/mock/byTask") "missing" 2 mistypedFS).2.2.2.2.1
      (by decide) (by decide) (by decide),
   (registerPolicyState_value jsonCodec {}
      (stdTargetToCachePathFunc "testdata/mock/byTask") "missing" 2 mistypedFS).2.2.2.2.2
      (by decide) (by decide)⟩

set_option maxRecDepth 100000 in
/-- The open of an entry whose name has more than 255 bytes: in the by-policy namespace
of `main` the policy id of 300 letters gives `ENAMETOOLONG` for the write and for the
read alike, an error that `os.IsNotExist` rejects, and nothing is written. -/
theorem writeTask_readTask_long_name :
    (writeTask exampleCodec (policyTask "u1" (String.mk (List.replicate 300 'a')) 5)
        examplePolicyCfg cacheFS).1
      = some (.pathError "open"
          ("cache/byPolicy/" ++ String.mk (List.replicate 300 'a') ++ ".json")
          .ENAMETOOLONG) ∧
    (readTask exampleCodec
        ("cache/byPolicy/" ++ String.mk (List.replicate 300 'a') ++ ".json") cacheFS).2
      = some (.pathError "open"
          ("cache/byPolicy/" ++ String.mk (List.replicate 300 'a') ++ ".json")
          .ENAMETOOLONG) ∧
    os.IsNotExist (.pathError "open"
        ("cache/byPolicy/" ++ String.mk (List.replicate 300 'a') ++ ".json")
        .ENAMETOOLONG) = false ∧
    (writeTask exampleCodec (policyTask "u1" (String.mk (List.replicate 300 'a')) 5)
        examplePolicyCfg cacheFS).2.files
        ("cache/byPolicy/" ++ String.mk (List.replicate 300 'a') ++ ".json") = none := by
  decide

/-- The open of an entry whose name holds a NUL byte gives `EINVAL`, for the write and
for the read alike. -/
theorem writeTask_readTask_nul_byte :
    (writeTask exampleCodec (policyTask "u1" (String.mk ['a', Char.ofNat 0]) 5)
        examplePolicyCfg cacheFS).1
      = some (.pathError "open"
          ("cache/byPolicy/" ++ String.mk ['a', Char.ofNat 0] ++ ".json") .EINVAL) ∧
    (readTask exampleCodec
        ("cache/byPolicy/" ++ String.mk ['a', Char.ofNat 0] ++ ".json") cacheFS).2
      = some (.pathError "open"
          ("cache/byPolicy/" ++ String.mk ['a', Char.ofNat 0] ++ ".json") .EINVAL) := by
  decide

/-- The write of a task that does not marshal: the task of policy `p1` updated in the
year 33658, and the one updated before the year 0, are refused by `Encode` after the
entry was opened and truncated, so `writeTask` returns the error and leaves an empty
file, which reads as `EOF`. -/
theorem writeTask_unmarshalable_leaves_empty :
    (writeTask exampleCodec (exampleTask "u1" 1000000000000000000000) examplePolicyCfg
        cacheFS).1
      = some (.other ("json: error calling MarshalJSON for type time.Time: " ++
          "Time.MarshalJSON: year outside of range [0,9999]")) ∧
    readTask exampleCodec "cache/byPolicy/p1.json"
        (writeTask exampleCodec (exampleTask "u1" 1000000000000000000000) examplePolicyCfg
          cacheFS).2
      = ({}, some (.decode "EOF")) ∧
    (writeTask exampleCodec (exampleTask "u1" (-70000000000000000000)) examplePolicyCfg
        cacheFS).1
      = some (.other ("json: error calling MarshalJSON for type time.Time: " ++
          "Time.MarshalJSON: year outside of range [0,9999]")) ∧
    (writeTask exampleCodec (exampleTask "u1" (-70000000000000000000)) examplePolicyCfg
        cacheFS).2.files "cache/byPolicy/p1.json"
      = some (.junk "") := by
  decide

end Claims

end AcronisExporter
